import Mathlib

/-!
Connection discovery in kubegraph.

A shallow embedding of the Go sources `main.go` (socket-table parsing in
`GetConn`, aggregation in `GetAllContainersConn`) and `agent.go` (process
inventory in `processes`), followed by theorems about them.

Conventions of the embedding:

* a Go `string` is a byte sequence; it is embedded as `List Char`, one `Char`
  per byte (all slicing and `len` in the source are byte based);
* a run-time panic (index out of range, slice bounds out of range) is the
  value `none` of an `Option`;
* unsigned machine integers are `Nat`, with the reduction modulo `2 ^ w`
  written out where the source converts (`uint32(x)`);
* the fields of a line are numbered as the source numbers them: they are the
  items of the split on runs of blanks, counted from 0, so that a line that
  starts with blanks, as the kernel prints its rows, has an empty item 0.

The definitions come first (the sources, then the vocabulary used to state
the properties), the theorems after them.
-/

namespace Kubegraph

/-- A Go string, as its sequence of bytes. -/
abbrev GoString := List Char

/-! ## Library functions used by the sources -/

/-- The call `strings.Split(s, sep)` for a one-byte separator: the pieces
between the occurrences of `sep`; never empty (`[""]` for the empty string). -/
def stringsSplit (sep : Char) : GoString → List GoString
  | [] => [[]]
  | c :: cs =>
    if c = sep then [] :: stringsSplit sep cs
    else (c :: (stringsSplit sep cs).headD []) :: (stringsSplit sep cs).tail

/-- The character class `[ \t]` of the separator expression in `GetConn`. -/
def isBlank (c : Char) : Bool := c == ' ' || c == '\t'

/-- Worker of `regexpSplit`; `inRun` tells that the previous byte belonged to
a separator match, which the current blank byte then extends. -/
def regexpSplitAux : Bool → GoString → List GoString
  | _, [] => [[]]
  | inRun, c :: cs =>
    if isBlank c then
      if inRun then regexpSplitAux true cs else [] :: regexpSplitAux true cs
    else (c :: (regexpSplitAux false cs).headD []) :: (regexpSplitAux false cs).tail

/-- The call `regexp.MustCompile("[ \t]+").Split(line, -1)`: the pieces of
`line` between the maximal runs of spaces and tabs. A leading or a trailing
run leaves an empty first or last piece, and the empty line gives `[""]`. -/
def regexpSplit (line : GoString) : List GoString := regexpSplitAux false line

/-- The two ways `strconv.ParseUint` fails. -/
inductive NumError where
  | badSyntax
  | outOfRange
  deriving DecidableEq, Repr

/-- Value of a byte as a digit, as in the digit switch of `strconv.ParseUint`
(letters count from ten, whatever the base). -/
def digitVal (c : Char) : Option Nat :=
  if '0'.toNat ≤ c.toNat ∧ c.toNat ≤ '9'.toNat then some (c.toNat - '0'.toNat)
  else if 'a'.toNat ≤ c.toNat ∧ c.toNat ≤ 'z'.toNat then some (c.toNat - 'a'.toNat + 10)
  else if 'A'.toNat ≤ c.toNat ∧ c.toNat ≤ 'Z'.toNat then some (c.toNat - 'A'.toNat + 10)
  else none

/-- The digit loop of `strconv.ParseUint`: `n` is the value read so far. A byte
that is no digit of the base stops with value `0`; a value that leaves the
range stops with `maxVal`. -/
def parseUintLoop (base maxVal cutoff : Nat) : Nat → GoString → Nat × Option NumError
  | n, [] => (n, none)
  | n, c :: cs =>
    match digitVal c with
    | none => (0, some NumError.badSyntax)
    | some d =>
      if base ≤ d then (0, some NumError.badSyntax)
      else if cutoff ≤ n then (maxVal, some NumError.outOfRange)
      else if maxVal < n * base + d then (maxVal, some NumError.outOfRange)
      else parseUintLoop base maxVal cutoff (n * base + d) cs

/-- The call `strconv.ParseUint(s, base, bitSize)` for `2 ≤ base ≤ 36` and
`1 ≤ bitSize ≤ 64`: the value and the error. As documented, a range error comes
with the largest value of the bit size, a syntax error with `0`. -/
def ParseUint (s : GoString) (base bitSize : Nat) : Nat × Option NumError :=
  if s = [] then (0, some NumError.badSyntax)
  else parseUintLoop base (2 ^ bitSize - 1) ((2 ^ 64 - 1) / base + 1) 0 s

/-- Decimal text of an unsigned integer (`%d`, and the bytes of `IP.String`). -/
def uitoa (n : Nat) : GoString := Nat.toDigits 10 n

/-- A `net.IP` of length four. -/
structure IP where
  b0 : Nat
  b1 : Nat
  b2 : Nat
  b3 : Nat
  deriving DecidableEq, Repr

/-- The method `IP.String` on a four-byte address: dotted decimal. -/
def IP.String (ip : IP) : GoString :=
  uitoa ip.b0 ++ '.' :: uitoa ip.b1 ++ '.' :: uitoa ip.b2 ++ '.' :: uitoa ip.b3

/-! ## `main.go` -/

/-- Source `int2ip`: `binary.LittleEndian.PutUint32` into a fresh four-byte
`net.IP`; `nn` is a `uint32`. -/
def int2ip (nn : Nat) : IP :=
  { b0 := nn % 256, b1 := nn / 2 ^ 8 % 256, b2 := nn / 2 ^ 16 % 256, b3 := nn / 2 ^ 24 % 256 }

/-- Source `connectionDesc`. -/
structure connectionDesc where
  Protocol : GoString
  IPVersion : Int
  SrcPort : Nat
  SrcIP : GoString
  DstPort : Nat
  DstIP : GoString
  Status : GoString
  deriving DecidableEq, Repr

/-- The body of the `if len(items) > 2` block of `GetConn` for one line's
items; `none` is an index-out-of-range panic. -/
def connOfItems (protocol : GoString) (ipversion : Int) (items : List GoString) :
    Option connectionDesc := do
  let strSrcIP0 ← (stringsSplit ':' (← items[2]?))[0]?
  let strDstIP0 ← (stringsSplit ':' (← items[3]?))[0]?
  let both := decide (8 < strDstIP0.length) && decide (8 < strSrcIP0.length)
  let strSrcIP := if both then strSrcIP0.drop (strSrcIP0.length - 8) else strSrcIP0
  let strDstIP := if both then strDstIP0.drop (strDstIP0.length - 8) else strDstIP0
  let hexSrcIP := (ParseUint strSrcIP 16 32).1
  let intSrcIP := hexSrcIP % 2 ^ 32
  let hexDstIP := (ParseUint strDstIP 16 32).1
  let intDstIP := hexDstIP % 2 ^ 32
  let srcIP := int2ip intSrcIP
  let dstIP := int2ip intDstIP
  let strSrcPort ← (stringsSplit ':' (← items[2]?))[1]?
  let strDstPort ← (stringsSplit ':' (← items[3]?))[1]?
  let srcPort := (ParseUint strSrcPort 16 32).1
  let dstPort := (ParseUint strDstPort 16 32).1
  let strHexConnStatus ← items[4]?
  let intConnStatus := (ParseUint strHexConnStatus 16 32).1
  let strConnStatus :=
    if intConnStatus = 1 then "established".toList
    else if intConnStatus = 10 then "listening".toList
    else "other (code:".toList ++ uitoa intConnStatus ++ ")".toList
  pure
    { Protocol := protocol, IPVersion := ipversion, SrcPort := srcPort, SrcIP := srcIP.String,
      DstPort := dstPort, DstIP := dstIP.String, Status := strConnStatus }

/-- One turn of the `for _, line := range lines[1:]` loop of `GetConn`: the
descriptors appended for `line` (none when the line is passed over), or `none`
when the turn panics. -/
def connOfLine (protocol : GoString) (ipversion : Int) (line : GoString) :
    Option (List connectionDesc) :=
  let items := regexpSplit line
  if 2 < items.length then (connOfItems protocol ipversion items).map fun cd => [cd]
  else some []

/-- The loop of `GetConn` over the data lines, appending to `cds`. -/
def connLoop (protocol : GoString) (ipversion : Int) :
    List GoString → List connectionDesc → Option (List connectionDesc)
  | [], cds => some cds
  | line :: rest, cds =>
    match connOfLine protocol ipversion line with
    | none => none
    | some new => connLoop protocol ipversion rest (cds ++ new)

/-- The parsing part of `GetConn` (from `strings.Split(stdout.String(), "\n")`
to the `return`), as a function of the text on standard output: the
descriptors returned, or `none` when the parse panics. -/
def parseConn (protocol : GoString) (ipversion : Int) (stdout : GoString) :
    Option (List connectionDesc) :=
  match stringsSplit '\n' stdout with
  | [] => none
  | _ :: dataLines => connLoop protocol ipversion dataLines []


/-- One request to the remote execution collaborator: run
`cat /proc/net/<Procfile>` in a container of a pod. -/
structure ExecCall where
  Namespace : GoString
  PodName : GoString
  Container : GoString
  Procfile : GoString
  deriving DecidableEq, Repr

/-- The remote execution collaborator behind `execute`, deterministic: the text
it leaves on standard output and whether it reports an error. -/
abbrev Remote := ExecCall → GoString × Bool

/-- Source `GetConn`: one exec call, added to the log of calls, then the parse
of its standard output. The second component is the returned pair (the
descriptors and whether `err` is non-nil), or `none` when the parse panics. -/
def GetConn (remote : Remote) (log : List ExecCall) (procfile protocol : GoString)
    (ipversion : Int) (nspace podName containerName : GoString) :
    List ExecCall × Option (List connectionDesc × Bool) :=
  let call : ExecCall :=
    { Namespace := nspace, PodName := podName, Container := containerName, Procfile := procfile }
  let out := remote call
  (log ++ [call], (parseConn protocol ipversion out.1).map fun cds => (cds, out.2))

/-- Source `podConnections`. -/
structure podConnections where
  Namespace : GoString
  PodName : GoString
  Connections : List connectionDesc
  deriving DecidableEq, Repr

/-- What `GetAllContainersConn` reads of a pod: namespace, name and the names
of `pod.Spec.Containers`, in order. -/
structure Pod where
  Namespace : GoString
  Name : GoString
  Containers : List GoString
  deriving DecidableEq, Repr

/-- The loop `for _, container := range pod.Spec.Containers` of
`GetAllContainersConn`, from the log of exec calls and `pc.Connections` so
far: the log at the end, and `pc.Connections` at the end or `none` when a
parse panicked. -/
def containersLoop (remote : Remote) (nspace podName : GoString) :
    List GoString → List ExecCall → List connectionDesc →
      List ExecCall × Option (List connectionDesc)
  | [], log, conns => (log, some conns)
  | container :: rest, log, conns =>
    match GetConn remote log "tcp".toList "tcp".toList 4 nspace podName container with
    | (log1, none) => (log1, none)
    | (log1, some (pcTCP, _)) =>
      match GetConn remote log1 "tcp6".toList "tcp".toList 6 nspace podName container with
      | (log2, none) => (log2, none)
      | (log2, some (pcTCP6, _)) =>
        match GetConn remote log2 "udp".toList "udp".toList 4 nspace podName container with
        | (log3, none) => (log3, none)
        | (log3, some (pcUDP, _)) =>
          match GetConn remote log3 "udp6".toList "udp".toList 6 nspace podName container with
          | (log4, none) => (log4, none)
          | (log4, some (pcUDP6, _)) =>
            if 0 < pcUDP.length ∨ 0 < pcTCP.length ∨ 0 < pcUDP6.length ∨ 0 < pcTCP6.length then
              (log4, some (conns ++ pcTCP ++ pcTCP6 ++ pcUDP ++ pcUDP6))
            else
              containersLoop remote nspace podName rest log4
                (conns ++ pcTCP ++ pcTCP6 ++ pcUDP ++ pcUDP6)

/-- The loop `for _, pod := range pods.Items` of `GetAllContainersConn`. -/
def podsLoop (remote : Remote) :
    List Pod → List ExecCall → List podConnections → List ExecCall × Option (List podConnections)
  | [], log, pcs => (log, some pcs)
  | pod :: rest, log, pcs =>
    match containersLoop remote pod.Namespace pod.Name pod.Containers log [] with
    | (log1, none) => (log1, none)
    | (log1, some conns) =>
      podsLoop remote rest log1
        (pcs ++ [{ Namespace := pod.Namespace, PodName := pod.Name, Connections := conns }])

/-- Source `GetAllContainersConn`, for the pods `GetPods` lists: the exec calls
issued, in order, and the value returned, `none` when a parse panicked. -/
def GetAllContainersConn (remote : Remote) (pods : List Pod) :
    List ExecCall × Option (List podConnections) :=
  podsLoop remote pods [] []

/-! ## `agent.go` -/

/-- The call `strconv.ParseInt(s, base, bitSize)`, with `bitSize = 0` for the
size of `int` (64): the value and the error. -/
def ParseInt (s : GoString) (base bitSize : Nat) : Int × Option NumError :=
  match s with
  | [] => (0, some NumError.badSyntax)
  | c :: cs =>
    let neg := decide (c = '-')
    let digits := if c = '+' ∨ c = '-' then cs else s
    let width := if bitSize = 0 then 64 else bitSize
    let un := ParseUint digits base width
    if un.2 = some NumError.badSyntax then (0, some NumError.badSyntax)
    else
      let cutoff := 2 ^ (width - 1)
      if neg = false ∧ cutoff ≤ un.1 then (((cutoff - 1 : Nat) : Int), some NumError.outOfRange)
      else if neg = true ∧ cutoff < un.1 then (-((cutoff : Nat) : Int), some NumError.outOfRange)
      else (if neg then -((un.1 : Nat) : Int) else ((un.1 : Nat) : Int), none)

/-- Decimal text of a signed integer (`%d`). -/
def itoa (i : Int) : GoString :=
  if i < 0 then '-' :: uitoa i.natAbs else uitoa i.natAbs

/-- Source `Process`, with the fields `pidns` and `netns` that `processes`
assigns. -/
structure Process where
  pid : Int
  pidns : Int
  netns : Int
  Connections : List connectionDesc
  deriving DecidableEq, Repr

/-- What `processes` reads of an `os.FileInfo`. -/
structure FileInfo where
  Name : GoString
  IsDir : Bool
  deriving DecidableEq, Repr

/-- An open directory as `processes` sees it: the batches the successive calls
`d.Readdir(10)` return, after which the next call reports `io.EOF`, or another
error when `readError` is set. -/
structure Dir where
  batches : List (List FileInfo)
  readError : Bool
  deriving DecidableEq, Repr

/-- How a call ends: with a value, with an error value, or in a panic. -/
inductive Outcome (α : Type) where
  | returned (a : α)
  | failed
  | panicked
  deriving DecidableEq, Repr

/-- The map `map[int64][]*Process`, as the list of its keys with their
values; no key occurs twice. -/
abbrev ProcMap := List (Int × List Process)

/-- The read `m[k]`: the value at `k`, the nil slice when `k` is absent. -/
def mapGet (m : ProcMap) (k : Int) : List Process :=
  match m with
  | [] => []
  | (k0, v0) :: rest => if k0 = k then v0 else mapGet rest k

/-- The write `m[k] = v`. -/
def mapSet (m : ProcMap) (k : Int) (v : List Process) : ProcMap :=
  match m with
  | [] => [(k, v)]
  | (k0, v0) :: rest => if k0 = k then (k, v) :: rest else (k0, v0) :: mapSet rest k v

/-- Source `getNamespaceId`; `readlink` is `os.Readlink`, `none` for an error,
which the source only prints before it slices the empty link text. The result
is `none` when a slice expression panics. -/
def getNamespaceId (readlink : GoString → Option GoString) (pid : Int) (nsType : GoString) :
    Option Int :=
  let nsFileStr := "/procmnt/".toList ++ itoa pid ++ "/ns/".toList ++ nsType
  let nsFileLink := (readlink nsFileStr).getD []
  if nsFileLink.length < 5 then none
  else
    let nsId := nsFileLink.drop 5
    if nsId.length < 1 then none
    else
      let nsId1 := nsId.take (nsId.length - 1)
      some (ParseInt nsId1 10 64).1

/-- The loop `for _, fi := range fis` of `processes` over one batch; `none` is
a panic. -/
def scanBatch (readlink : GoString → Option GoString) : List FileInfo → ProcMap → Option ProcMap
  | [], m => some m
  | fi :: rest, m =>
    if fi.IsDir = false then scanBatch readlink rest m
    else
      match fi.Name with
      | [] => none
      | c0 :: _ =>
        if c0.toNat < '0'.toNat ∨ '9'.toNat < c0.toNat then scanBatch readlink rest m
        else
          match ParseInt fi.Name 10 0 with
          | (_, some _) => scanBatch readlink rest m
          | (pid, none) =>
            match getNamespaceId readlink pid "pid".toList with
            | none => none
            | some pidNS =>
              match getNamespaceId readlink pid "net".toList with
              | none => none
              | some netNS =>
                scanBatch readlink rest
                  (mapSet m pidNS (mapGet m pidNS ++
                    [{ pid := pid, pidns := pidNS, netns := netNS, Connections := [] }]))

/-- The outer `for` loop of `processes` over the batches. -/
def scanDir (readlink : GoString → Option GoString) (readError : Bool) :
    List (List FileInfo) → ProcMap → Outcome ProcMap
  | [], m => if readError then Outcome.failed else Outcome.returned m
  | fis :: rest, m =>
    match scanBatch readlink fis m with
    | none => Outcome.panicked
    | some m1 => scanDir readlink readError rest m1

/-- Source `processes`; `root` is the result of `os.Open("/procmnt")`, `none`
for an error. -/
def processes (root : Option Dir) (readlink : GoString → Option GoString) : Outcome ProcMap :=
  match root with
  | none => Outcome.failed
  | some d => scanDir readlink d.readError d.batches []

/-! ## Vocabulary of the specification -/

/-- A byte that is a hexadecimal digit, of either case. -/
def isHexDigit (c : Char) : Bool :=
  ('0'.toNat ≤ c.toNat && c.toNat ≤ '9'.toNat) ||
  ('a'.toNat ≤ c.toNat && c.toNat ≤ 'f'.toNat) ||
  ('A'.toNat ≤ c.toNat && c.toNat ≤ 'F'.toNat)

/-- Value of a hexadecimal digit. -/
def hexDigitValue (c : Char) : Nat :=
  if c.toNat ≤ '9'.toNat then c.toNat - '0'.toNat
  else if c.toNat ≤ 'F'.toNat then c.toNat - 'A'.toNat + 10
  else c.toNat - 'a'.toNat + 10

/-- The number a string of hexadecimal digits denotes, most significant digit
first. -/
def hexValue (s : GoString) : Nat := s.foldl (fun n c => n * 16 + hexDigitValue c) 0

/-- A non-empty text of hexadecimal digits. -/
def IsHexText (s : GoString) : Prop := s ≠ [] ∧ ∀ c ∈ s, isHexDigit c = true

instance (s : GoString) : Decidable (IsHexText s) := by
  unfold IsHexText; exact inferInstance

/-- The hexadecimal digit, in upper case as the kernel prints it, of a value
below sixteen. -/
def hexDigitChar (k : Nat) : Char := "0123456789ABCDEF".toList.getD k '0'

/-- Two hexadecimal digits for a byte. -/
def hexByte (b : Nat) : GoString := [hexDigitChar (b / 16), hexDigitChar (b % 16)]

/-- The kernel's text for the IPv4 address `a.b.c.d`: the eight hexadecimal
digits of the little-endian word, bytes written `d`, `c`, `b`, `a`. -/
def hexWordLE (a b c d : Nat) : GoString := hexByte d ++ hexByte c ++ hexByte b ++ hexByte a

/-- Four hexadecimal digits for a port. -/
def hexPort (p : Nat) : GoString := hexByte (p / 256) ++ hexByte (p % 256)

/-- Dotted-decimal text `a.b.c.d`. -/
def dotted (a b c d : Nat) : GoString :=
  uitoa a ++ ".".toList ++ uitoa b ++ ".".toList ++ uitoa c ++ ".".toList ++ uitoa d

/-- The last `n` bytes of a string (the whole string when it is shorter). -/
def lastBytes (n : Nat) (s : GoString) : GoString := (s.reverse.take n).reverse

/-- Dotted-quad reading of a 32-bit little-endian word. -/
def dottedLE (v : Nat) : GoString :=
  dotted (v % 256) (v / 256 % 256) (v / 65536 % 256) (v / 16777216 % 256)

/-- The data line of the specification's literal example, as printed there:
it starts with `1:`. -/
def exampleLine : GoString :=
  "1: 0100007F:1F90 00000000:0000 0A 00000000:00000000 00:00000000 00000000   0    0 12345 1 0000000000000000 20 0 0 10 0".toList

/-- The header line the kernel prints for its socket tables. -/
def kernelHeader : GoString :=
  "  sl  local_address rem_address   st tx_queue rx_queue tr tm->when retrnsmt   uid  timeout inode".toList

/-- The descriptor the specification expects for `exampleLine`. -/
def exampleDesc : connectionDesc :=
  { Protocol := "tcp".toList, IPVersion := 4, SrcPort := 8080, SrcIP := "127.0.0.1".toList,
    DstPort := 0, DstIP := "0.0.0.0".toList, Status := "listening".toList }

/-- A numeric text that `strconv.ParseUint` rejects for its syntax before any
overflow: it is empty, or its first byte that is no hexadecimal digit follows
digits that fit 32 bits. -/
def SyntaxFails (t : GoString) : Prop :=
  t = [] ∨ ∃ pre c post, t = pre ++ c :: post ∧ (∀ x ∈ pre, isHexDigit x = true) ∧
    hexValue pre < 2 ^ 32 ∧ isHexDigit c = false

/-- A numeric text of hexadecimal digits whose number does not fit 32 bits. -/
def RangeFails (t : GoString) : Prop :=
  (∀ x ∈ t, isHexDigit x = true) ∧ 2 ^ 32 ≤ hexValue t

/-- The address text `GetConn` decodes: the last eight bytes when both address
texts are longer than eight bytes, the whole text otherwise. -/
def addressText (own other : GoString) : GoString :=
  if 8 < own.length ∧ 8 < other.length then lastBytes 8 own else own

/-- The text made of the given lines, a newline between two neighbours. -/
def joinLines : List GoString → GoString
  | [] => []
  | [l] => l
  | l :: l2 :: ls => l ++ '\n' :: joinLines (l2 :: ls)

/-- The four socket-table variants, in the order they are fetched: proc file,
protocol, IP version. -/
def variants : List (GoString × GoString × Int) :=
  [("tcp".toList, "tcp".toList, 4), ("tcp6".toList, "tcp".toList, 6),
   ("udp".toList, "udp".toList, 4), ("udp6".toList, "udp".toList, 6)]

/-- The four exec calls for a container, in the order tcp, tcp6, udp, udp6. -/
def callsFor (nspace podName container : GoString) : List ExecCall :=
  variants.map fun v =>
    { Namespace := nspace, PodName := podName, Container := container, Procfile := v.1 }

/-- The parse of the output of one variant for a container. -/
def parsedVariant (remote : Remote) (nspace podName container : GoString)
    (v : GoString × GoString × Int) : Option (List connectionDesc) :=
  parseConn v.2.1 v.2.2
    (remote { Namespace := nspace, PodName := podName, Container := container,
              Procfile := v.1 }).1

/-- The four parsed results of a container, concatenated in the order tcp,
tcp6, udp, udp6 (a parse that does not return contributes nothing). -/
def containerResults (remote : Remote) (nspace podName container : GoString) :
    List connectionDesc :=
  (variants.map fun v => (parsedVariant remote nspace podName container v).getD []).flatten

/-- The containers up to and including the first one that satisfies `p`. -/
def upToFirst {α : Type} (p : α → Bool) : List α → List α
  | [] => []
  | c :: cs => if p c then [c] else c :: upToFirst p cs

/-- A container yields when at least one of its four parsed results is
non-empty. -/
def yields (remote : Remote) (nspace podName container : GoString) : Bool :=
  !(containerResults remote nspace podName container).isEmpty

/-- A pod with three containers. -/
def samplePod : Pod :=
  { Namespace := "default".toList, Name := "web".toList,
    Containers := ["c1".toList, "c2".toList, "c3".toList] }

/-- An exec collaborator whose first container returns one established TCP
connection and nothing else. -/
def establishedRemote : Remote := fun call =>
  if call.Container = "c1".toList ∧ call.Procfile = "tcp".toList then
    ("hdr\n   0: 0100007F:1F90 0200007F:C350 01\n".toList, false)
  else ([], false)

/-- An exec collaborator whose `tcp` table has, after the header, a data line
of three fields; every other output is empty. -/
def shortLineRemote : Remote := fun call =>
  if call.Procfile = "tcp".toList then ("hdr\na b c".toList, false) else ([], false)

/-- An exec collaborator whose `tcp` table holds one established connection
and whose `tcp6` table has a truncated data line; the other outputs are empty
and come with an error. -/
def truncatedRemote : Remote := fun call =>
  if call.Procfile = "tcp".toList then
    ("hdr\n   0: 0100007F:1F90 0200007F:C350 01\n".toList, false)
  else if call.Procfile = "tcp6".toList then
    ("hdr\n   0: 0000000000000000FFFF00000100007F:1F90".toList, false)
  else ([], true)

/-- An exec collaborator whose every call fails and delivers empty output. -/
def failingRemote : Remote := fun _ => ([], true)

/-- The process record of a directory entry that qualifies: a directory whose
name starts with a decimal digit and parses as a process identifier, with the
two namespace identifiers resolved. -/
def survivor (readlink : GoString → Option GoString) (fi : FileInfo) : Option Process :=
  if fi.IsDir = true ∧ (∃ c ∈ fi.Name.head?, '0'.toNat ≤ c.toNat ∧ c.toNat ≤ '9'.toNat) ∧
      (ParseInt fi.Name 10 0).2 = none then
    match getNamespaceId readlink (ParseInt fi.Name 10 0).1 "pid".toList,
      getNamespaceId readlink (ParseInt fi.Name 10 0).1 "net".toList with
    | some pidNS, some netNS =>
      some { pid := (ParseInt fi.Name 10 0).1, pidns := pidNS, netns := netNS, Connections := [] }
    | _, _ => none
  else none

/-- The surviving processes of a listing, in listing order. -/
def survivors (readlink : GoString → Option GoString) (d : Dir) : List Process :=
  d.batches.flatten.filterMap (survivor readlink)

/-- The records of all buckets of a map. -/
def allRecords (m : ProcMap) : List Process := m.flatMap fun kb => kb.2

/-- A small introspection root: processes 1 and 7 share the network namespace
4026531956 and live in the process-ID namespaces 4026531836 and 4026532200. -/
def sampleLinks (path : GoString) : Option GoString :=
  if path = "/procmnt/1/ns/pid".toList then some "pid:[4026531836]".toList
  else if path = "/procmnt/1/ns/net".toList then some "net:[4026531956]".toList
  else if path = "/procmnt/7/ns/pid".toList then some "pid:[4026532200]".toList
  else if path = "/procmnt/7/ns/net".toList then some "net:[4026531956]".toList
  else none

/-- The listing of the small introspection root. -/
def sampleDir : Dir :=
  { batches := [[{ Name := "1".toList, IsDir := true }, { Name := "7".toList, IsDir := true },
                 { Name := "cpuinfo".toList, IsDir := false },
                 { Name := "sys".toList, IsDir := true }]],
    readError := false }

/-- The grouping invariant: keys are distinct, each record sits in the bucket
of its own process-ID namespace, and the buckets hold exactly the records
`ps`. -/
def Grouped (m : ProcMap) (ps : List Process) : Prop :=
  (m.map Prod.fst).Nodup ∧ (∀ kb ∈ m, ∀ p ∈ kb.2, p.pidns = kb.1) ∧ (allRecords m).Perm ps

/-- The namespace link of a process resolves: it can be read and has room for
the five bytes before the identifier and the bracket after it. -/
def LinkResolves (readlink : GoString → Option GoString) (pid : Int) (nsType : GoString) :
    Prop :=
  ∃ l, readlink ("/procmnt/".toList ++ itoa pid ++ "/ns/".toList ++ nsType) = some l ∧
    6 ≤ l.length

/-- A directory entry the scan gets through: a directory has a name, and when
the name parses as a process identifier both namespace links resolve. -/
def Scannable (readlink : GoString → Option GoString) (fi : FileInfo) : Prop :=
  fi.IsDir = true → fi.Name ≠ [] ∧
    ((ParseInt fi.Name 10 0).2 = none →
      LinkResolves readlink (ParseInt fi.Name 10 0).1 "pid".toList ∧
      LinkResolves readlink (ParseInt fi.Name 10 0).1 "net".toList)

/-! ## Facts about the library functions -/

theorem stringsSplit_ne_nil (sep : Char) (s : GoString) : stringsSplit sep s ≠ [] := by
  cases s with
  | nil => simp [stringsSplit]
  | cons c cs => unfold stringsSplit; split <;> simp

theorem stringsSplit_of_not_mem (sep : Char) (s : GoString) (h : sep ∉ s) :
    stringsSplit sep s = [s] := by
  induction s with
  | nil => rfl
  | cons c cs ih =>
    have hc : c ≠ sep := fun e => h (by simp [e])
    have hcs : sep ∉ cs := fun e => h (List.mem_cons_of_mem _ e)
    simp [stringsSplit, hc, ih hcs]

theorem stringsSplit_append (sep : Char) (x y : GoString) (h : sep ∉ x) :
    stringsSplit sep (x ++ sep :: y) = x :: stringsSplit sep y := by
  induction x with
  | nil => simp [stringsSplit]
  | cons c cs ih =>
    have hc : c ≠ sep := fun e => h (by simp [e])
    have hcs : sep ∉ cs := fun e => h (List.mem_cons_of_mem _ e)
    simp [stringsSplit, hc, ih hcs]

theorem exists_first_split (sep : Char) (s : GoString) (h : sep ∈ s) :
    ∃ x y, s = x ++ sep :: y ∧ sep ∉ x := by
  induction s with
  | nil => simp at h
  | cons c cs ih =>
    by_cases hc : c = sep
    · exact ⟨[], cs, by simp [hc], by simp⟩
    · have hcs : sep ∈ cs := by
        rcases List.mem_cons.1 h with e | e
        · exact absurd e.symm hc
        · exact e
      obtain ⟨x, y, hxy, hx⟩ := ih hcs
      refine ⟨c :: x, y, by simp [hxy], ?_⟩
      intro hm
      rcases List.mem_cons.1 hm with e | e
      · exact hc e.symm
      · exact hx e

theorem regexpSplitAux_true_eq (s : GoString) (h : ∀ c ∈ s.head?, isBlank c = false) :
    regexpSplitAux true s = regexpSplitAux false s := by
  cases s with
  | nil => rfl
  | cons c cs =>
    have hc : isBlank c = false := h c (by simp)
    simp [regexpSplitAux, hc]

theorem regexpSplitAux_blanks (ws rest : GoString) (hws : ∀ c ∈ ws, isBlank c = true)
    (hrest : ∀ c ∈ rest.head?, isBlank c = false) :
    regexpSplitAux true (ws ++ rest) = regexpSplitAux false rest := by
  induction ws with
  | nil => exact regexpSplitAux_true_eq rest hrest
  | cons w ws ih =>
    have hw : isBlank w = true := hws w (by simp)
    have := ih (fun c hc => hws c (List.mem_cons_of_mem _ hc))
    simp [regexpSplitAux, hw, this]

theorem regexpSplit_leading_blanks (ws rest : GoString) (hne : ws ≠ [])
    (hws : ∀ c ∈ ws, isBlank c = true) (hrest : ∀ c ∈ rest.head?, isBlank c = false) :
    regexpSplit (ws ++ rest) = [] :: regexpSplit rest := by
  cases ws with
  | nil => exact absurd rfl hne
  | cons w ws =>
    have hw : isBlank w = true := hws w (by simp)
    have := regexpSplitAux_blanks ws rest (fun c hc => hws c (List.mem_cons_of_mem _ hc)) hrest
    simp [regexpSplit, regexpSplitAux, hw, this]

theorem parseConn_header (protocol : GoString) (ipversion : Int) (hdr rest : GoString)
    (h : '\n' ∉ hdr) :
    parseConn protocol ipversion (hdr ++ '\n' :: rest)
      = connLoop protocol ipversion (stringsSplit '\n' rest) [] := by
  simp [parseConn, stringsSplit_append _ _ _ h]


theorem digitVal_of_isHexDigit (c : Char) (h : isHexDigit c = true) :
    digitVal c = some (hexDigitValue c) ∧ hexDigitValue c < 16 := by
  have e0 : '0'.toNat = 48 := rfl
  have e9 : '9'.toNat = 57 := rfl
  have ea : 'a'.toNat = 97 := rfl
  have ef : 'f'.toNat = 102 := rfl
  have ez : 'z'.toNat = 122 := rfl
  have eA : 'A'.toNat = 65 := rfl
  have eF : 'F'.toNat = 70 := rfl
  have eZ : 'Z'.toNat = 90 := rfl
  simp only [isHexDigit, e0, e9, ea, ef, eA, eF, Bool.or_eq_true, Bool.and_eq_true,
    decide_eq_true_eq] at h
  unfold digitVal hexDigitValue
  simp only [e0, e9, ea, ez, eA, eF, eZ]
  rcases h with (h | h) | h
  · rw [if_pos h, if_pos h.2]; exact ⟨rfl, by omega⟩
  · rw [if_neg (by omega), if_pos (by omega), if_neg (by omega), if_neg (by omega)]
    exact ⟨rfl, by omega⟩
  · rw [if_neg (by omega), if_neg (by omega), if_pos (by omega), if_neg (by omega),
      if_pos (by omega)]
    exact ⟨rfl, by omega⟩

theorem digitVal_of_not_isHexDigit (c : Char) (h : isHexDigit c = false) :
    digitVal c = none ∨ ∃ d, digitVal c = some d ∧ 16 ≤ d := by
  have e0 : '0'.toNat = 48 := rfl
  have e9 : '9'.toNat = 57 := rfl
  have ea : 'a'.toNat = 97 := rfl
  have ef : 'f'.toNat = 102 := rfl
  have ez : 'z'.toNat = 122 := rfl
  have eA : 'A'.toNat = 65 := rfl
  have eF : 'F'.toNat = 70 := rfl
  have eZ : 'Z'.toNat = 90 := rfl
  simp only [isHexDigit, e0, e9, ea, ef, eA, eF, Bool.or_eq_false_iff, Bool.and_eq_false_imp,
    decide_eq_true_eq, decide_eq_false_iff_not] at h
  unfold digitVal
  simp only [e0, e9, ea, ez, eA, eZ]
  obtain ⟨⟨h1, h2⟩, h3⟩ := h
  by_cases c1 : 48 ≤ c.toNat ∧ c.toNat ≤ 57
  · exact absurd c1.2 (h1 c1.1)
  · rw [if_neg c1]
    by_cases c2 : 97 ≤ c.toNat ∧ c.toNat ≤ 122
    · rw [if_pos c2]
      exact Or.inr ⟨_, rfl, by have := h2 c2.1; omega⟩
    · rw [if_neg c2]
      by_cases c3 : 65 ≤ c.toNat ∧ c.toNat ≤ 90
      · rw [if_pos c3]
        exact Or.inr ⟨_, rfl, by have := h3 c3.1; omega⟩
      · rw [if_neg c3]; exact Or.inl rfl

/-- The value read so far never decreases along the digits. -/
theorem le_foldl_hex (s : GoString) (n : Nat) :
    n ≤ s.foldl (fun n c => n * 16 + hexDigitValue c) n := by
  induction s generalizing n with
  | nil => exact Nat.le_refl _
  | cons c cs ih =>
    simp only [List.foldl_cons]
    exact Nat.le_trans (by omega) (ih _)

theorem parseUintLoop_ok (M C : Nat) (hMC : M < C) (s : GoString) (n : Nat)
    (hs : ∀ c ∈ s, isHexDigit c = true)
    (hfit : s.foldl (fun n c => n * 16 + hexDigitValue c) n ≤ M) :
    parseUintLoop 16 M C n s = (s.foldl (fun n c => n * 16 + hexDigitValue c) n, none) := by
  induction s generalizing n with
  | nil => rfl
  | cons c cs ih =>
    simp only [List.foldl_cons] at hfit ⊢
    obtain ⟨hd, hlt⟩ := digitVal_of_isHexDigit c (hs c (by simp))
    have h1 : n * 16 + hexDigitValue c ≤ M := Nat.le_trans (le_foldl_hex cs _) hfit
    unfold parseUintLoop
    rw [hd]
    simp only
    rw [if_neg (by omega), if_neg (by omega), if_neg (by omega)]
    exact ih _ (fun x hx => hs x (List.mem_cons_of_mem _ hx)) hfit

theorem parseUintLoop_range (M C : Nat) (hMC : M < C) (s : GoString) (n : Nat)
    (hs : ∀ c ∈ s, isHexDigit c = true) (hn : n ≤ M)
    (hbig : M < s.foldl (fun n c => n * 16 + hexDigitValue c) n) :
    parseUintLoop 16 M C n s = (M, some NumError.outOfRange) := by
  induction s generalizing n with
  | nil => simp only [List.foldl_nil] at hbig; omega
  | cons c cs ih =>
    simp only [List.foldl_cons] at hbig
    obtain ⟨hd, hlt⟩ := digitVal_of_isHexDigit c (hs c (by simp))
    unfold parseUintLoop
    rw [hd]
    simp only
    rw [if_neg (by omega), if_neg (by omega)]
    by_cases h1 : M < n * 16 + hexDigitValue c
    · rw [if_pos h1]
    · rw [if_neg h1]
      exact ih _ (fun x hx => hs x (List.mem_cons_of_mem _ hx)) (by omega) hbig

theorem parseUintLoop_bad (M C : Nat) (hMC : M < C) (pre : GoString) (c : Char)
    (post : GoString) (n : Nat) (hs : ∀ x ∈ pre, isHexDigit x = true)
    (hfit : pre.foldl (fun n c => n * 16 + hexDigitValue c) n ≤ M)
    (hc : isHexDigit c = false) :
    parseUintLoop 16 M C n (pre ++ c :: post) = (0, some NumError.badSyntax) := by
  induction pre generalizing n with
  | nil =>
    simp only [List.nil_append]
    unfold parseUintLoop
    rcases digitVal_of_not_isHexDigit c hc with h | ⟨d, h, hd⟩
    · rw [h]
    · rw [h]; simp only; rw [if_pos hd]
  | cons p ps ih =>
    simp only [List.foldl_cons] at hfit
    obtain ⟨hd, hlt⟩ := digitVal_of_isHexDigit p (hs p (by simp))
    have h1 : n * 16 + hexDigitValue p ≤ M := Nat.le_trans (le_foldl_hex ps _) hfit
    simp only [List.cons_append]
    unfold parseUintLoop
    rw [hd]
    simp only
    rw [if_neg (by omega), if_neg (by omega), if_neg (by omega)]
    exact ih _ (fun x hx => hs x (List.mem_cons_of_mem _ hx)) hfit

/-- The loop never leaves the range: its value is at most `M`. -/
theorem parseUintLoop_le (b M C : Nat) (s : GoString) (n : Nat) (hn : n ≤ M) :
    (parseUintLoop b M C n s).1 ≤ M := by
  induction s generalizing n with
  | nil => exact hn
  | cons c cs ih =>
    unfold parseUintLoop
    cases digitVal c with
    | none => exact Nat.zero_le _
    | some d =>
      simp only
      split
      · exact Nat.zero_le _
      · split
        · exact Nat.le_refl _
        · split
          · exact Nat.le_refl _
          · exact ih _ (by omega)

theorem ParseUint_le (s : GoString) (b w : Nat) : (ParseUint s b w).1 ≤ 2 ^ w - 1 := by
  unfold ParseUint
  split
  · exact Nat.zero_le _
  · exact parseUintLoop_le _ _ _ _ _ (Nat.zero_le _)

/-- A text of hexadecimal digits whose number fits 32 bits is read as that
number, without error. -/
theorem ParseUint_hex (s : GoString) (hs : IsHexText s) (hfit : hexValue s < 2 ^ 32) :
    ParseUint s 16 32 = (hexValue s, none) := by
  unfold ParseUint
  rw [if_neg hs.1]
  exact parseUintLoop_ok _ _ (by norm_num) s 0 hs.2 (by unfold hexValue at hfit; omega)

/-- A text of hexadecimal digits whose number does not fit 32 bits is read as
the largest 32-bit value. -/
theorem ParseUint_hex_big (s : GoString) (hs : ∀ c ∈ s, isHexDigit c = true)
    (hbig : 2 ^ 32 ≤ hexValue s) :
    ParseUint s 16 32 = (4294967295, some NumError.outOfRange) := by
  unfold ParseUint
  have hne : s ≠ [] := by
    rintro rfl
    simp [hexValue] at hbig
  rw [if_neg hne]
  exact parseUintLoop_range _ _ (by norm_num) s 0 hs (Nat.zero_le _)
    (by unfold hexValue at hbig; omega)

/-- A text whose first byte that is no hexadecimal digit comes after digits
that still fit 32 bits is read as zero. -/
theorem ParseUint_bad (pre : GoString) (c : Char) (post : GoString)
    (hs : ∀ x ∈ pre, isHexDigit x = true) (hfit : hexValue pre < 2 ^ 32)
    (hc : isHexDigit c = false) :
    ParseUint (pre ++ c :: post) 16 32 = (0, some NumError.badSyntax) := by
  unfold ParseUint
  rw [if_neg (by simp)]
  exact parseUintLoop_bad _ _ (by norm_num) pre c post 0 hs
    (by unfold hexValue at hfit; omega) hc

/-! ## Facts about one line of the table -/

theorem stringsSplit_two_of_mem (f : GoString) (h : ':' ∈ f) :
    ∃ a p r, stringsSplit ':' f = a :: p :: r := by
  obtain ⟨x, y, rfl, hx⟩ := exists_first_split ':' f h
  rw [stringsSplit_append _ _ _ hx]
  cases hs : stringsSplit ':' y with
  | nil => exact absurd hs (stringsSplit_ne_nil _ _)
  | cons p r => exact ⟨x, p, r, rfl⟩

theorem stringsSplit_pair (a p : GoString) (ha : ':' ∉ a) (hp : ':' ∉ p) :
    stringsSplit ':' (a ++ ':' :: p) = [a, p] := by
  rw [stringsSplit_append _ _ _ ha, stringsSplit_of_not_mem _ _ hp]

/-- What the block of `GetConn` computes from the items of a line whose third
and fourth items split at a colon. -/
theorem connOfItems_eq (protocol : GoString) (ipversion : Int) (items : List GoString)
    (f2 f3 st sa sp da dp : GoString) (rs rd : List GoString)
    (h2 : items[2]? = some f2) (h3 : items[3]? = some f3) (h4 : items[4]? = some st)
    (hs : stringsSplit ':' f2 = sa :: sp :: rs) (hd : stringsSplit ':' f3 = da :: dp :: rd) :
    connOfItems protocol ipversion items = some
      { Protocol := protocol, IPVersion := ipversion,
        SrcPort := (ParseUint sp 16 32).1,
        SrcIP := (int2ip ((ParseUint (if 8 < da.length ∧ 8 < sa.length
          then sa.drop (sa.length - 8) else sa) 16 32).1 % 2 ^ 32)).String,
        DstPort := (ParseUint dp 16 32).1,
        DstIP := (int2ip ((ParseUint (if 8 < da.length ∧ 8 < sa.length
          then da.drop (da.length - 8) else da) 16 32).1 % 2 ^ 32)).String,
        Status :=
          if (ParseUint st 16 32).1 = 1 then "established".toList
          else if (ParseUint st 16 32).1 = 10 then "listening".toList
          else "other (code:".toList ++ uitoa (ParseUint st 16 32).1 ++ ")".toList } := by
  simp only [connOfItems, h2, h3, h4, hs, hd, Option.bind_eq_bind, Option.some_bind,
    List.getElem?_cons_zero, List.getElem?_cons_succ, Option.pure_def, Bool.and_eq_true,
    decide_eq_true_eq]

theorem length_gt_of_getElem? {α : Type} (l : List α) (i : Nat) (a : α)
    (h : l[i]? = some a) : i < l.length := by
  by_contra hn
  rw [List.getElem?_eq_none (by omega)] at h
  cases h

theorem connOfLine_of_items (protocol : GoString) (ipversion : Int) (line : GoString)
    (f2 : GoString) (h2 : (regexpSplit line)[2]? = some f2) :
    connOfLine protocol ipversion line
      = (connOfItems protocol ipversion (regexpSplit line)).map fun cd => [cd] := by
  have := length_gt_of_getElem? _ _ _ h2
  simp only [connOfLine]
  rw [if_pos this]

/-! ## Facts about the encoding -/

theorem hexDigitChar_spec : ∀ k, k < 16 →
    isHexDigit (hexDigitChar k) = true ∧ hexDigitValue (hexDigitChar k) = k := by
  decide

theorem foldl_hexByte (b n : Nat) (hb : b < 256) :
    (hexByte b).foldl (fun n c => n * 16 + hexDigitValue c) n = n * 256 + b := by
  have h1 := (hexDigitChar_spec (b / 16) (by omega)).2
  have h2 := (hexDigitChar_spec (b % 16) (by omega)).2
  simp only [hexByte, List.foldl_cons, List.foldl_nil, h1, h2]
  omega

theorem isHexDigit_hexByte (b : Nat) (hb : b < 256) : ∀ c ∈ hexByte b, isHexDigit c = true := by
  intro c hc
  simp only [hexByte, List.mem_cons, List.mem_singleton, List.not_mem_nil, or_false] at hc
  rcases hc with rfl | rfl
  · exact (hexDigitChar_spec _ (by omega)).1
  · exact (hexDigitChar_spec _ (by omega)).1

theorem colon_not_hex (s : GoString) (h : ∀ c ∈ s, isHexDigit c = true) : ':' ∉ s :=
  fun hm => absurd (h _ hm) (by decide)

theorem hexWordLE_spec (a b c d : Nat) (ha : a < 256) (hb : b < 256) (hc : c < 256)
    (hd : d < 256) :
    IsHexText (hexWordLE a b c d) ∧
      hexValue (hexWordLE a b c d) = d * 2 ^ 24 + c * 2 ^ 16 + b * 2 ^ 8 + a := by
  refine ⟨⟨by simp [hexWordLE, hexByte], ?_⟩, ?_⟩
  · intro x hx
    simp only [hexWordLE, List.mem_append] at hx
    rcases hx with ((hx | hx) | hx) | hx
    · exact isHexDigit_hexByte _ hd _ hx
    · exact isHexDigit_hexByte _ hc _ hx
    · exact isHexDigit_hexByte _ hb _ hx
    · exact isHexDigit_hexByte _ ha _ hx
  · simp only [hexValue, hexWordLE, List.foldl_append, foldl_hexByte _ _ hd,
      foldl_hexByte _ _ hc, foldl_hexByte _ _ hb, foldl_hexByte _ _ ha]
    omega

theorem hexPort_spec (p : Nat) (hp : p < 65536) :
    IsHexText (hexPort p) ∧ hexValue (hexPort p) = p := by
  refine ⟨⟨by simp [hexPort, hexByte], ?_⟩, ?_⟩
  · intro x hx
    simp only [hexPort, List.mem_append] at hx
    rcases hx with hx | hx
    · exact isHexDigit_hexByte _ (by omega) _ hx
    · exact isHexDigit_hexByte _ (by omega) _ hx
  · simp only [hexValue, hexPort, List.foldl_append, foldl_hexByte _ _ (show p / 256 < 256 by omega),
      foldl_hexByte _ _ (show p % 256 < 256 by omega)]
    omega

theorem int2ip_String (v : Nat) : (int2ip v).String = dottedLE v := by
  simp [int2ip, IP.String, dottedLE, dotted]

theorem foldl_hex_lt (s : GoString) (n : Nat) (hs : ∀ c ∈ s, isHexDigit c = true) :
    s.foldl (fun n c => n * 16 + hexDigitValue c) n < (n + 1) * 16 ^ s.length := by
  induction s generalizing n with
  | nil => simp
  | cons c cs ih =>
    have hlt := (digitVal_of_isHexDigit c (hs c (by simp))).2
    have := ih (n * 16 + hexDigitValue c) (fun x hx => hs x (List.mem_cons_of_mem _ hx))
    simp only [List.foldl_cons, List.length_cons, pow_succ]
    calc _ < (n * 16 + hexDigitValue c + 1) * 16 ^ cs.length := this
      _ ≤ ((n + 1) * 16) * 16 ^ cs.length := Nat.mul_le_mul_right _ (by omega)
      _ = (n + 1) * (16 ^ cs.length * 16) := by ring

theorem hexValue_lt (s : GoString) (hs : ∀ c ∈ s, isHexDigit c = true) :
    hexValue s < 16 ^ s.length := by
  have := foldl_hex_lt s 0 hs
  simpa [hexValue] using this

theorem lastBytes_eq_drop (n : Nat) (s : GoString) : lastBytes n s = s.drop (s.length - n) := by
  unfold lastBytes
  rw [List.take_reverse, List.reverse_reverse]

/-! ## Facts about the loop over the lines -/

theorem connOfItems_ports (protocol : GoString) (ipversion : Int) (items : List GoString)
    (cd : connectionDesc) (h : connOfItems protocol ipversion items = some cd) :
    cd.SrcPort ≤ 4294967295 ∧ cd.DstPort ≤ 4294967295 := by
  simp only [connOfItems, Option.bind_eq_bind, Option.bind_eq_some, Option.pure_def,
    Option.some.injEq] at h
  obtain ⟨_, _, _, _, _, _, _, _, sp, _, _, _, dp, _, _, _, _, _, rfl⟩ := h
  exact ⟨ParseUint_le _ 16 32, ParseUint_le _ 16 32⟩

theorem connOfLine_mem (protocol : GoString) (ipversion : Int) (line : GoString)
    (new : List connectionDesc) (h : connOfLine protocol ipversion line = some new)
    (cd : connectionDesc) (hcd : cd ∈ new) :
    connOfItems protocol ipversion (regexpSplit line) = some cd := by
  simp only [connOfLine] at h
  split at h
  · simp only [Option.map_eq_some'] at h
    obtain ⟨x, hx, rfl⟩ := h
    simp only [List.mem_singleton] at hcd
    rw [hcd, hx]
  · simp only [Option.some.injEq] at h
    subst h
    simp at hcd

theorem connLoop_mem (protocol : GoString) (ipversion : Int) (lines : List GoString)
    (cds out : List connectionDesc) (h : connLoop protocol ipversion lines cds = some out)
    (cd : connectionDesc) (hcd : cd ∈ out) :
    cd ∈ cds ∨ ∃ line ∈ lines, connOfItems protocol ipversion (regexpSplit line) = some cd := by
  induction lines generalizing cds with
  | nil =>
    simp only [connLoop, Option.some.injEq] at h
    subst h
    exact Or.inl hcd
  | cons line rest ih =>
    simp only [connLoop] at h
    cases hl : connOfLine protocol ipversion line with
    | none => rw [hl] at h; cases h
    | some new =>
      rw [hl] at h
      rcases ih _ h with hm | ⟨l, hl2, hl3⟩
      · rcases List.mem_append.1 hm with hm | hm
        · exact Or.inl hm
        · exact Or.inr ⟨line, by simp, connOfLine_mem _ _ _ _ hl _ hm⟩
      · exact Or.inr ⟨l, List.mem_cons_of_mem _ hl2, hl3⟩

theorem stringsSplit_joinLines (l : GoString) (ls : List GoString)
    (h : ∀ x ∈ l :: ls, '\n' ∉ x) : stringsSplit '\n' (joinLines (l :: ls)) = l :: ls := by
  induction ls generalizing l with
  | nil => exact stringsSplit_of_not_mem _ _ (h l (by simp))
  | cons l2 rest ih =>
    rw [joinLines, stringsSplit_append _ _ _ (h l (by simp)),
      ih l2 (fun x hx => h x (List.mem_cons_of_mem _ hx))]

theorem connLoop_eq_mapM (protocol : GoString) (ipversion : Int) (lines : List GoString)
    (cds : List connectionDesc) :
    connLoop protocol ipversion lines cds
      = (lines.mapM (connOfLine protocol ipversion)).map fun rs => cds ++ rs.flatten := by
  induction lines generalizing cds with
  | nil =>
    rw [connLoop, List.mapM_nil]
    simp only [Option.pure_def, Option.map_some', List.flatten, List.append_nil]
  | cons line rest ih =>
    rw [connLoop, List.mapM_cons]
    cases h : connOfLine protocol ipversion line with
    | none => simp
    | some new =>
      simp only [ih, Option.bind_eq_bind, Option.some_bind, Option.pure_def]
      cases List.mapM (connOfLine protocol ipversion) rest with
      | none => simp
      | some rs => simp [List.append_assoc]

/-- The parse of a text is made line by line: for a header and data lines
joined by newlines, the descriptors are those of the data lines, in line
order, and the parse panics exactly when the turn of one line does. -/
theorem parseConn_joinLines (protocol : GoString) (ipversion : Int) (hdr : GoString)
    (dataLines : List GoString) (h : ∀ x ∈ hdr :: dataLines, '\n' ∉ x) :
    parseConn protocol ipversion (joinLines (hdr :: dataLines))
      = (dataLines.mapM (connOfLine protocol ipversion)).map List.flatten := by
  unfold parseConn
  rw [stringsSplit_joinLines hdr dataLines h]
  simp only [connLoop_eq_mapM, List.nil_append]

/-! ## Facts about the aggregator -/

theorem head_mem_upToFirst {α : Type} (p : α → Bool) (c : α) (cs : List α) :
    c ∈ upToFirst p (c :: cs) := by
  unfold upToFirst
  split <;> simp

/-- One container's turn of the loop when its four parses return: four exec
calls in the order tcp, tcp6, udp, udp6, the four results appended, and the
loop stops exactly when one of them is non-empty. -/
theorem containersLoop_cons (remote : Remote) (nspace podName c : GoString)
    (rest : List GoString) (log : List ExecCall) (conns : List connectionDesc)
    (hret : ∀ v ∈ variants, (parsedVariant remote nspace podName c v).isSome = true) :
    containersLoop remote nspace podName (c :: rest) log conns =
      if yields remote nspace podName c = true then
        (log ++ callsFor nspace podName c,
          some (conns ++ containerResults remote nspace podName c))
      else
        containersLoop remote nspace podName rest (log ++ callsFor nspace podName c) conns := by
  have h1 := hret ("tcp".toList, "tcp".toList, 4) (List.mem_cons_self _ _)
  have h2 := hret ("tcp6".toList, "tcp".toList, 6)
    (List.mem_cons_of_mem _ (List.mem_cons_self _ _))
  have h3 := hret ("udp".toList, "udp".toList, 4)
    (List.mem_cons_of_mem _ (List.mem_cons_of_mem _ (List.mem_cons_self _ _)))
  have h4 := hret ("udp6".toList, "udp".toList, 6)
    (List.mem_cons_of_mem _ (List.mem_cons_of_mem _ (List.mem_cons_of_mem _
      (List.mem_cons_self _ _))))
  simp only [parsedVariant, Option.isSome_iff_exists] at h1 h2 h3 h4
  obtain ⟨r1, h1⟩ := h1
  obtain ⟨r2, h2⟩ := h2
  obtain ⟨r3, h3⟩ := h3
  obtain ⟨r4, h4⟩ := h4
  have hres : containerResults remote nspace podName c = r1 ++ r2 ++ r3 ++ r4 := by
    simp only [containerResults, variants, parsedVariant, List.map_cons, List.map_nil,
      List.flatten, h1, h2, h3, h4, Option.getD_some, List.append_nil, List.append_assoc]
  have hcalls : callsFor nspace podName c =
      [⟨nspace, podName, c, "tcp".toList⟩, ⟨nspace, podName, c, "tcp6".toList⟩,
        ⟨nspace, podName, c, "udp".toList⟩, ⟨nspace, podName, c, "udp6".toList⟩] := rfl
  rw [containersLoop]
  simp only [GetConn, h1, h2, h3, h4, Option.map_some']
  rw [hcalls, hres]
  by_cases hy : 0 < r3.length ∨ 0 < r1.length ∨ 0 < r4.length ∨ 0 < r2.length
  · have hyes : yields remote nspace podName c = true := by
      simp only [yields, hres]
      rcases hy with h | h | h | h <;>
        · cases r1 <;> cases r2 <;> cases r3 <;> cases r4 <;> simp at h ⊢
    rw [if_pos hy, if_pos hyes]
    simp only [List.append_assoc, List.cons_append, List.nil_append]
  · have hno : yields remote nspace podName c = false := by
      simp only [yields, hres]
      cases r1 <;> cases r2 <;> cases r3 <;> cases r4 <;> simp at hy ⊢
    have hnil : r1 = [] ∧ r2 = [] ∧ r3 = [] ∧ r4 = [] := by
      cases r1 <;> cases r2 <;> cases r3 <;> cases r4 <;> simp at hy ⊢
    obtain ⟨rfl, rfl, rfl, rfl⟩ := hnil
    rw [if_neg hy, if_neg (by simp [hno])]
    simp only [List.append_assoc, List.cons_append, List.nil_append, List.append_nil]

/-- The aggregator for one pod when every parse it makes returns: exec calls go
to the containers up to and including the first that yields, four each in the
order tcp, tcp6, udp, udp6, and the connections are the results of that first
yielding container (none when no container yields). -/
theorem containersLoop_when_parses_return (remote : Remote) (nspace podName : GoString)
    (containers : List GoString) (log : List ExecCall) (conns : List connectionDesc)
    (hret : ∀ c ∈ upToFirst (yields remote nspace podName) containers, ∀ v ∈ variants,
      (parsedVariant remote nspace podName c v).isSome = true) :
    containersLoop remote nspace podName containers log conns =
      (log ++ (upToFirst (yields remote nspace podName) containers).flatMap
          (callsFor nspace podName),
        some (conns ++ ((containers.find? (yields remote nspace podName)).map
          (containerResults remote nspace podName)).getD [])) := by
  induction containers generalizing log conns with
  | nil => simp [containersLoop, upToFirst]
  | cons c rest ih =>
    rw [containersLoop_cons remote nspace podName c rest log conns
      (hret c (head_mem_upToFirst _ c rest))]
    by_cases hy : yields remote nspace podName c = true
    · rw [if_pos hy]
      simp [upToFirst, hy, List.find?]
    · rw [if_neg hy]
      have hrest : ∀ c2 ∈ upToFirst (yields remote nspace podName) rest, ∀ v ∈ variants,
          (parsedVariant remote nspace podName c2 v).isSome = true := by
        intro c2 hc2
        apply hret
        simp only [upToFirst, hy]
        exact List.mem_cons_of_mem _ hc2
      rw [ih _ _ hrest]
      simp [upToFirst, hy, List.find?, List.append_assoc]

/-! ## Facts about the process inventory -/

theorem mapSet_keys (m : ProcMap) (k : Int) (v : List Process) :
    (mapSet m k v).map Prod.fst
      = if k ∈ m.map Prod.fst then m.map Prod.fst else m.map Prod.fst ++ [k] := by
  induction m with
  | nil => simp [mapSet]
  | cons kb rest ih =>
    obtain ⟨k0, v0⟩ := kb
    unfold mapSet
    by_cases h : k0 = k
    · subst h; simp
    · have h2 : ¬ k = k0 := fun e => h e.symm
      simp only [if_neg h, List.map_cons, ih, List.mem_cons, h2, false_or]
      split <;> simp

theorem mapSet_keys_nodup (m : ProcMap) (k : Int) (v : List Process)
    (h : (m.map Prod.fst).Nodup) : ((mapSet m k v).map Prod.fst).Nodup := by
  rw [mapSet_keys]
  split
  · exact h
  · rename_i hk
    exact List.Nodup.append h (List.nodup_singleton k) (by
      intro a ha hb
      simp only [List.mem_singleton] at hb
      exact hk (hb ▸ ha))

theorem mem_mapSet (m : ProcMap) (k : Int) (v : List Process) (kb : Int × List Process)
    (h : kb ∈ mapSet m k v) : kb = (k, v) ∨ kb ∈ m := by
  induction m with
  | nil => simp [mapSet] at h; exact Or.inl h
  | cons kb0 rest ih =>
    obtain ⟨k0, v0⟩ := kb0
    unfold mapSet at h
    by_cases hk : k0 = k
    · rw [if_pos hk] at h
      rcases List.mem_cons.1 h with h | h
      · exact Or.inl h
      · exact Or.inr (List.mem_cons_of_mem _ h)
    · rw [if_neg hk] at h
      rcases List.mem_cons.1 h with h | h
      · exact Or.inr (h ▸ List.mem_cons_self _ _)
      · rcases ih h with h | h
        · exact Or.inl h
        · exact Or.inr (List.mem_cons_of_mem _ h)

theorem mapGet_mem (m : ProcMap) (k : Int) (p : Process) (h : p ∈ mapGet m k) :
    ∃ kb ∈ m, kb.1 = k ∧ p ∈ kb.2 := by
  induction m with
  | nil => simp [mapGet] at h
  | cons kb0 rest ih =>
    obtain ⟨k0, v0⟩ := kb0
    unfold mapGet at h
    by_cases hk : k0 = k
    · rw [if_pos hk] at h
      exact ⟨(k0, v0), List.mem_cons_self _ _, hk, h⟩
    · rw [if_neg hk] at h
      obtain ⟨kb, hkb, h1, h2⟩ := ih h
      exact ⟨kb, List.mem_cons_of_mem _ hkb, h1, h2⟩

theorem allRecords_mapSet (m : ProcMap) (k : Int) (p : Process) :
    (allRecords (mapSet m k (mapGet m k ++ [p]))).Perm (allRecords m ++ [p]) := by
  induction m with
  | nil => simp [mapSet, mapGet, allRecords]
  | cons kb0 rest ih =>
    obtain ⟨k0, v0⟩ := kb0
    unfold mapSet mapGet
    by_cases hk : k0 = k
    · simp only [if_pos hk, allRecords, List.flatMap_cons, List.append_assoc]
      exact List.Perm.append_left _ List.perm_append_comm
    · simp only [if_neg hk, allRecords, List.flatMap_cons, List.append_assoc]
      exact List.Perm.append_left _ ih

theorem Grouped_add (m : ProcMap) (ps : List Process) (p : Process) (h : Grouped m ps) :
    Grouped (mapSet m p.pidns (mapGet m p.pidns ++ [p])) (ps ++ [p]) := by
  obtain ⟨h1, h2, h3⟩ := h
  refine ⟨mapSet_keys_nodup _ _ _ h1, ?_, ?_⟩
  · intro kb hkb q hq
    rcases mem_mapSet _ _ _ _ hkb with rfl | hm
    · simp only [List.mem_append, List.mem_singleton] at hq
      rcases hq with hq | rfl
      · obtain ⟨kb2, hkb2, e, hq2⟩ := mapGet_mem _ _ _ hq
        rw [h2 kb2 hkb2 q hq2, e]
      · rfl
    · exact h2 kb hm q hq
  · exact (allRecords_mapSet m p.pidns p).trans (List.Perm.append_right _ h3)

theorem scanBatch_grouped (readlink : GoString → Option GoString) (fis : List FileInfo)
    (m m1 : ProcMap) (ps : List Process) (h : scanBatch readlink fis m = some m1)
    (hm : Grouped m ps) : Grouped m1 (ps ++ fis.filterMap (survivor readlink)) := by
  induction fis generalizing m ps with
  | nil =>
    simp only [scanBatch, Option.some.injEq] at h
    subst h
    simpa using hm
  | cons fi rest ih =>
    unfold scanBatch at h
    by_cases hd : fi.IsDir = false
    · rw [if_pos hd] at h
      have hs : survivor readlink fi = none := by simp [survivor, hd]
      rw [List.filterMap_cons_none hs]
      exact ih _ _ h hm
    · rw [if_neg hd] at h
      cases hn : fi.Name with
      | nil => rw [hn] at h; cases h
      | cons c0 cs =>
        rw [hn] at h
        simp only at h
        by_cases hc : c0.toNat < '0'.toNat ∨ '9'.toNat < c0.toNat
        · rw [if_pos hc] at h
          have hs : survivor readlink fi = none := by
            unfold survivor
            rw [if_neg]
            rintro ⟨-, ⟨c, hc1, hc2⟩, -⟩
            rw [hn] at hc1
            simp only [List.head?_cons, Option.mem_def, Option.some.injEq] at hc1
            subst hc1
            omega
          rw [List.filterMap_cons_none hs]
          exact ih _ _ h hm
        · rw [if_neg hc, ← hn] at h
          cases hp : ParseInt fi.Name 10 0 with
          | mk pid err =>
            rw [hp] at h
            cases err with
            | some e =>
              simp only at h
              have hs : survivor readlink fi = none := by
                unfold survivor
                rw [if_neg]
                rintro ⟨-, -, h3⟩
                rw [hp] at h3
                cases h3
              rw [List.filterMap_cons_none hs]
              exact ih _ _ h hm
            | none =>
              simp only at h
              cases h1 : getNamespaceId readlink pid "pid".toList with
              | none => rw [h1] at h; cases h
              | some pidNS =>
                rw [h1] at h
                simp only at h
                cases h2 : getNamespaceId readlink pid "net".toList with
                | none => rw [h2] at h; cases h
                | some netNS =>
                  rw [h2] at h
                  simp only at h
                  have hs : survivor readlink fi
                      = some { pid := pid, pidns := pidNS, netns := netNS, Connections := [] } := by
                    unfold survivor
                    rw [if_pos, hp]
                    · simp only [h1, h2]
                    · refine ⟨by simpa using hd, ⟨c0, by simp [hn], by omega⟩, by rw [hp]⟩
                  rw [List.filterMap_cons_some hs]
                  have := ih _ (ps ++ [(⟨pid, pidNS, netNS, []⟩ : Process)]) h
                    (Grouped_add m ps ⟨pid, pidNS, netNS, []⟩ hm)
                  simpa [List.append_assoc] using this

theorem scanDir_grouped (readlink : GoString → Option GoString) (e : Bool)
    (batches : List (List FileInfo)) (m m1 : ProcMap) (ps : List Process)
    (h : scanDir readlink e batches m = Outcome.returned m1) (hm : Grouped m ps) :
    Grouped m1 (ps ++ batches.flatten.filterMap (survivor readlink)) := by
  induction batches generalizing m ps with
  | nil =>
    unfold scanDir at h
    split at h
    · cases h
    · simp only [Outcome.returned.injEq] at h
      subst h
      simpa using hm
  | cons fis rest ih =>
    unfold scanDir at h
    cases hb : scanBatch readlink fis m with
    | none => rw [hb] at h; cases h
    | some m2 =>
      rw [hb] at h
      have := ih _ _ h (scanBatch_grouped readlink fis m m2 ps hb hm)
      simpa [List.append_assoc] using this

theorem getNamespaceId_isSome (readlink : GoString → Option GoString) (pid : Int)
    (nsType : GoString) (h : LinkResolves readlink pid nsType) :
    ∃ id, getNamespaceId readlink pid nsType = some id := by
  obtain ⟨l, hl, hlen⟩ := h
  unfold getNamespaceId
  simp only [hl, Option.getD_some]
  rw [if_neg (by omega), if_neg (by rw [List.length_drop]; omega)]
  exact ⟨_, rfl⟩

theorem scanBatch_returns (readlink : GoString → Option GoString) (fis : List FileInfo)
    (m : ProcMap) (h : ∀ fi ∈ fis, Scannable readlink fi) :
    ∃ m1, scanBatch readlink fis m = some m1 := by
  induction fis generalizing m with
  | nil => exact ⟨m, rfl⟩
  | cons fi rest ih =>
    have hrest : ∀ fi ∈ rest, Scannable readlink fi :=
      fun x hx => h x (List.mem_cons_of_mem _ hx)
    have hfi := h fi (List.mem_cons_self _ _)
    unfold scanBatch
    by_cases hd : fi.IsDir = false
    · rw [if_pos hd]; exact ih _ hrest
    · rw [if_neg hd]
      obtain ⟨hne, hlinks⟩ := hfi (by simpa using hd)
      cases hn : fi.Name with
      | nil => exact absurd hn hne
      | cons c0 cs =>
        simp only
        by_cases hc : c0.toNat < '0'.toNat ∨ '9'.toNat < c0.toNat
        · rw [if_pos hc]; exact ih _ hrest
        · rw [if_neg hc, ← hn]
          cases hp : ParseInt fi.Name 10 0 with
          | mk pid err =>
            cases err with
            | some e => exact ih _ hrest
            | none =>
              rw [hp] at hlinks
              obtain ⟨l1, l2⟩ := hlinks rfl
              obtain ⟨id1, e1⟩ := getNamespaceId_isSome _ _ _ l1
              obtain ⟨id2, e2⟩ := getNamespaceId_isSome _ _ _ l2
              simp only [e1, e2]
              exact ih _ hrest

theorem scanDir_returns (readlink : GoString → Option GoString)
    (batches : List (List FileInfo)) (m : ProcMap)
    (h : ∀ fi ∈ batches.flatten, Scannable readlink fi) :
    ∃ m1, scanDir readlink false batches m = Outcome.returned m1 := by
  induction batches generalizing m with
  | nil => exact ⟨m, by simp [scanDir]⟩
  | cons fis rest ih =>
    obtain ⟨m2, h2⟩ := scanBatch_returns readlink fis m
      (fun fi hfi => h fi (by simp [hfi]))
    unfold scanDir
    rw [h2]
    exact ih m2 (fun fi hfi => h fi (by
      simp only [List.flatten_cons, List.mem_append]
      exact Or.inr hfi))

/-! ## The connection table parser -/

/-- C1, as stated, fails: on a header line followed by the example line exactly
as printed (starting with `1:`, no leading blank) the parse does not return
the expected descriptor; it panics, because the items are counted from the
first, so that item 3 is the state `0A`, which has no port part. -/
theorem example_line_as_written_panics :
    regexpSplit exampleLine = ["1:".toList, "0100007F:1F90".toList, "00000000:0000".toList,
        "0A".toList, "00000000:00000000".toList, "00:00000000".toList, "00000000".toList,
        "0".toList, "0".toList, "12345".toList, "1".toList, "0000000000000000".toList,
        "20".toList, "0".toList, "0".toList, "10".toList, "0".toList] ∧
    parseConn "tcp".toList 4 (kernelHeader ++ '\n' :: exampleLine) = none ∧
    parseConn "tcp".toList 4 (kernelHeader ++ '\n' :: exampleLine) ≠ some [exampleDesc] := by
  decide

/-- C1, amended: with protocol "tcp" and ipVersion 4, a header line followed by
the example line indented by at least one blank, as the kernel prints it,
parses to exactly one descriptor: source 127.0.0.1 port 8080, destination
0.0.0.0 port 0, status "listening". -/
theorem example_line_indented (hdr ws : GoString) (hhdr : '\n' ∉ hdr) (hne : ws ≠ [])
    (hws : ∀ c ∈ ws, isBlank c = true) :
    parseConn "tcp".toList 4 (hdr ++ '\n' :: (ws ++ exampleLine)) = some [exampleDesc] := by
  have hnl : '\n' ∉ ws ++ exampleLine := by
    intro hm
    rcases List.mem_append.1 hm with h | h
    · exact absurd (hws _ h) (by decide)
    · exact absurd h (by decide)
  rw [parseConn_header _ _ _ _ hhdr, stringsSplit_of_not_mem _ _ hnl]
  have hsplit : regexpSplit (ws ++ exampleLine) = [] :: regexpSplit exampleLine :=
    regexpSplit_leading_blanks ws exampleLine hne hws (by decide)
  simp only [connLoop, connOfLine, hsplit]
  decide

/-- Witness of `example_line_indented`: the kernel header and three blanks of
indentation. -/
theorem example_line_indented_witness :
    parseConn "tcp".toList 4 (kernelHeader ++ '\n' :: ("   ".toList ++ exampleLine))
      = some [exampleDesc] :=
  example_line_indented kernelHeader "   ".toList (by decide) (by decide) (by decide)

/-- C2 fails on the code: a header, one well-formed line and then a data line
with only 3 fields. The 3-field line passes the guard `len(items) > 2`, the
read of `items[3]` panics, and the whole parse is lost, where the claim has
one descriptor returned. -/
theorem three_field_line_panics :
    regexpSplit "a b c".toList = ["a".toList, "b".toList, "c".toList] ∧
    parseConn "tcp".toList 4
      ("hdr\n   0: 0100007F:1F90 00000000:0000 0A\na b c".toList) = none := by
  decide

/-- C3: for every data line with a source and a destination field of the form
address:port and a state field that is a hexadecimal number `v` (fitting 32
bits), the line yields one descriptor, whose status is "established" if
`v = 1`, "listening" if `v = 10`, and otherwise "other (code:" followed by
`v` in decimal and ")". -/
theorem status_of_state_code (protocol : GoString) (ipversion : Int)
    (line f2 f3 st : GoString)
    (h2 : (regexpSplit line)[2]? = some f2) (hc2 : ':' ∈ f2)
    (h3 : (regexpSplit line)[3]? = some f3) (hc3 : ':' ∈ f3)
    (h4 : (regexpSplit line)[4]? = some st) (hst : IsHexText st)
    (hfit : hexValue st < 2 ^ 32) :
    ∃ cd, connOfLine protocol ipversion line = some [cd] ∧
      cd.Status =
        if hexValue st = 1 then "established".toList
        else if hexValue st = 10 then "listening".toList
        else "other (code:".toList ++ uitoa (hexValue st) ++ ")".toList := by
  obtain ⟨sa, sp, rs, hs⟩ := stringsSplit_two_of_mem f2 hc2
  obtain ⟨da, dp, rd, hd⟩ := stringsSplit_two_of_mem f3 hc3
  rw [connOfLine_of_items _ _ _ _ h2,
    connOfItems_eq protocol ipversion _ f2 f3 st sa sp da dp rs rd h2 h3 h4 hs hd]
  refine ⟨_, rfl, ?_⟩
  simp only [ParseUint_hex st hst hfit]

/-- Witness of `status_of_state_code`: the state codes `01`, `0A` and `05`. -/
theorem status_of_state_code_witness :
    (∃ cd, connOfLine "tcp".toList 4 "   0: 0100007F:1F90 0200007F:C350 01".toList = some [cd] ∧
      cd.Status = "established".toList) ∧
    (∃ cd, connOfLine "tcp".toList 4 "   1: 0100007F:1F90 00000000:0000 0A".toList = some [cd] ∧
      cd.Status = "listening".toList) ∧
    (∃ cd, connOfLine "tcp".toList 4 "   2: 0100007F:1F90 0200007F:C350 05".toList = some [cd] ∧
      cd.Status = "other (code:5)".toList) :=
  ⟨status_of_state_code "tcp".toList 4 "   0: 0100007F:1F90 0200007F:C350 01".toList
      "0100007F:1F90".toList "0200007F:C350".toList "01".toList
      (by decide) (by decide) (by decide) (by decide) (by decide) (by decide) (by decide),
    status_of_state_code "tcp".toList 4 "   1: 0100007F:1F90 00000000:0000 0A".toList
      "0100007F:1F90".toList "00000000:0000".toList "0A".toList
      (by decide) (by decide) (by decide) (by decide) (by decide) (by decide) (by decide),
    status_of_state_code "tcp".toList 4 "   2: 0100007F:1F90 0200007F:C350 05".toList
      "0100007F:1F90".toList "0200007F:C350".toList "05".toList
      (by decide) (by decide) (by decide) (by decide) (by decide) (by decide) (by decide)⟩

/-- C4: round trip for IPv4. For every address `a.b.c.d` and port `p`, a data
line whose source field is the eight-digit little-endian word of the address,
a colon and the four digits of the port (the destination field being any
address:port text) yields one descriptor with `srcIP` the text "a.b.c.d" and
`srcPort = p`; and the same for the destination field, `dstIP` and `dstPort`. -/
theorem ipv4_round_trip (protocol : GoString) (ipversion : Int) (line other st : GoString)
    (a b c d p : Nat) (ha : a < 256) (hb : b < 256) (hc : c < 256) (hd : d < 256)
    (hp : p < 65536) (hother : ':' ∈ other) (h4 : (regexpSplit line)[4]? = some st) :
    ((regexpSplit line)[2]? = some (hexWordLE a b c d ++ ':' :: hexPort p) →
      (regexpSplit line)[3]? = some other →
      ∃ cd, connOfLine protocol ipversion line = some [cd] ∧
        cd.SrcIP = dotted a b c d ∧ cd.SrcPort = p) ∧
    ((regexpSplit line)[3]? = some (hexWordLE a b c d ++ ':' :: hexPort p) →
      (regexpSplit line)[2]? = some other →
      ∃ cd, connOfLine protocol ipversion line = some [cd] ∧
        cd.DstIP = dotted a b c d ∧ cd.DstPort = p) := by
  obtain ⟨hw, hwv⟩ := hexWordLE_spec a b c d ha hb hc hd
  obtain ⟨hq, hqv⟩ := hexPort_spec p hp
  have hlen : (hexWordLE a b c d).length = 8 := by simp [hexWordLE, hexByte]
  have hsplit := stringsSplit_pair (hexWordLE a b c d) (hexPort p)
    (colon_not_hex _ hw.2) (colon_not_hex _ hq.2)
  obtain ⟨oa, op, ro, ho⟩ := stringsSplit_two_of_mem other hother
  have hfit : hexValue (hexWordLE a b c d) < 2 ^ 32 := by rw [hwv]; omega
  have hpfit : hexValue (hexPort p) < 2 ^ 32 := by rw [hqv]; omega
  have hno : ¬ (8 < (hexWordLE a b c d).length) := by omega
  have hip : dottedLE (hexValue (hexWordLE a b c d) % 2 ^ 32) = dotted a b c d := by
    rw [hwv]
    unfold dottedLE
    congr 1 <;> omega
  constructor
  · intro h2 h3
    rw [connOfLine_of_items _ _ _ _ h2,
      connOfItems_eq protocol ipversion _ _ other st _ _ oa op [] ro h2 h3 h4 hsplit ho]
    refine ⟨_, rfl, ?_, ?_⟩
    · simp only [if_neg (fun h : 8 < oa.length ∧ 8 < (hexWordLE a b c d).length => hno h.2),
        ParseUint_hex _ hw hfit, int2ip_String, hip]
    · simp only [ParseUint_hex _ hq hpfit, hqv]
  · intro h3 h2
    rw [connOfLine_of_items _ _ _ _ h2,
      connOfItems_eq protocol ipversion _ other _ st oa op _ _ ro [] h2 h3 h4 ho hsplit]
    refine ⟨_, rfl, ?_, ?_⟩
    · simp only [if_neg (fun h : 8 < (hexWordLE a b c d).length ∧ 8 < oa.length => hno h.1),
        ParseUint_hex _ hw hfit, int2ip_String, hip]
    · simp only [ParseUint_hex _ hq hpfit, hqv]

/-- Witness of `ipv4_round_trip`: 127.0.0.1 port 8080 as source, 192.168.0.1
port 80 as destination. -/
theorem ipv4_round_trip_witness :
    (∃ cd, connOfLine "tcp".toList 4
        "   1: 0100007F:1F90 0100A8C0:0050 01".toList = some [cd] ∧
      cd.SrcIP = "127.0.0.1".toList ∧ cd.SrcPort = 8080) ∧
    (∃ cd, connOfLine "tcp".toList 4
        "   1: 0100007F:1F90 0100A8C0:0050 01".toList = some [cd] ∧
      cd.DstIP = "192.168.0.1".toList ∧ cd.DstPort = 80) :=
  ⟨(ipv4_round_trip "tcp".toList 4 "   1: 0100007F:1F90 0100A8C0:0050 01".toList
      "0100A8C0:0050".toList "01".toList 127 0 0 1 8080
      (by decide) (by decide) (by decide) (by decide) (by decide) (by decide) (by decide)).1
      (by decide) (by decide),
    (ipv4_round_trip "tcp".toList 4 "   1: 0100007F:1F90 0100A8C0:0050 01".toList
      "0100007F:1F90".toList "01".toList 192 168 0 1 80
      (by decide) (by decide) (by decide) (by decide) (by decide) (by decide) (by decide)).2
      (by decide) (by decide)⟩

/-- C8: IPv6 truncation. Take a data line whose source field is `sa:sp` and
whose destination field is `da:dp`. When both address texts `sa` and `da` are
longer than 8 bytes, the line yields one descriptor, the same as any line
whose items differ only in that each address text is replaced by its last 8
bytes, and `srcIP`, `dstIP` are the dotted-quad readings of those last 8
hexadecimal digits as 32-bit little-endian words. When they are not both
longer than 8 bytes, the whole address texts are decoded, untruncated. -/
theorem ipv6_truncation (protocol : GoString) (ipversion : Int)
    (line sa sp da dp st : GoString)
    (h2 : (regexpSplit line)[2]? = some (sa ++ ':' :: sp)) (hsa : ':' ∉ sa)
    (h3 : (regexpSplit line)[3]? = some (da ++ ':' :: dp)) (hda : ':' ∉ da)
    (h4 : (regexpSplit line)[4]? = some st) :
    ∃ cd, connOfLine protocol ipversion line = some [cd] ∧
      (8 < sa.length → 8 < da.length →
        (∀ line2, regexpSplit line2 = ((regexpSplit line).set 2
              (lastBytes 8 sa ++ ':' :: sp)).set 3 (lastBytes 8 da ++ ':' :: dp) →
            connOfLine protocol ipversion line2 = some [cd]) ∧
        cd.SrcIP = dottedLE ((ParseUint (lastBytes 8 sa) 16 32).1 % 2 ^ 32) ∧
        cd.DstIP = dottedLE ((ParseUint (lastBytes 8 da) 16 32).1 % 2 ^ 32) ∧
        (IsHexText (lastBytes 8 sa) → cd.SrcIP = dottedLE (hexValue (lastBytes 8 sa))) ∧
        (IsHexText (lastBytes 8 da) → cd.DstIP = dottedLE (hexValue (lastBytes 8 da)))) ∧
      (¬ (8 < sa.length ∧ 8 < da.length) →
        cd.SrcIP = dottedLE ((ParseUint sa 16 32).1 % 2 ^ 32) ∧
        cd.DstIP = dottedLE ((ParseUint da 16 32).1 % 2 ^ 32)) := by
  obtain ⟨sp1, rs, hsp⟩ : ∃ p r, stringsSplit ':' sp = p :: r := by
    cases h : stringsSplit ':' sp with
    | nil => exact absurd h (stringsSplit_ne_nil _ _)
    | cons p r => exact ⟨p, r, rfl⟩
  obtain ⟨dp1, rd, hdp⟩ : ∃ p r, stringsSplit ':' dp = p :: r := by
    cases h : stringsSplit ':' dp with
    | nil => exact absurd h (stringsSplit_ne_nil _ _)
    | cons p r => exact ⟨p, r, rfl⟩
  have hs : stringsSplit ':' (sa ++ ':' :: sp) = sa :: sp1 :: rs := by
    rw [stringsSplit_append _ _ _ hsa, hsp]
  have hd : stringsSplit ':' (da ++ ':' :: dp) = da :: dp1 :: rd := by
    rw [stringsSplit_append _ _ _ hda, hdp]
  have hlen2 := length_gt_of_getElem? _ _ _ h2
  have hlen3 := length_gt_of_getElem? _ _ _ h3
  rw [connOfLine_of_items _ _ _ _ h2,
    connOfItems_eq protocol ipversion _ _ _ st sa sp1 da dp1 rs rd h2 h3 h4 hs hd]
  refine ⟨_, rfl, ?_, ?_⟩
  · intro h8s h8d
    have hboth : 8 < da.length ∧ 8 < sa.length := ⟨h8d, h8s⟩
    have hls : (lastBytes 8 sa).length = 8 := by
      rw [lastBytes_eq_drop, List.length_drop]; omega
    have hld : (lastBytes 8 da).length = 8 := by
      rw [lastBytes_eq_drop, List.length_drop]; omega
    simp only [if_pos hboth, int2ip_String, ← lastBytes_eq_drop]
    refine ⟨?_, trivial, trivial, ?_, ?_⟩
    · intro line2 hline2
      have hsa2 : ':' ∉ lastBytes 8 sa := fun hm =>
        hsa (List.mem_of_mem_drop (by rw [lastBytes_eq_drop] at hm; exact hm))
      have hda2 : ':' ∉ lastBytes 8 da := fun hm =>
        hda (List.mem_of_mem_drop (by rw [lastBytes_eq_drop] at hm; exact hm))
      have hs2 : stringsSplit ':' (lastBytes 8 sa ++ ':' :: sp) = lastBytes 8 sa :: sp1 :: rs := by
        rw [stringsSplit_append _ _ _ hsa2, hsp]
      have hd2 : stringsSplit ':' (lastBytes 8 da ++ ':' :: dp) = lastBytes 8 da :: dp1 :: rd := by
        rw [stringsSplit_append _ _ _ hda2, hdp]
      have g2 : (regexpSplit line2)[2]? = some (lastBytes 8 sa ++ ':' :: sp) := by
        rw [hline2, List.getElem?_set_ne (by decide), List.getElem?_set_self hlen2]
      have g3 : (regexpSplit line2)[3]? = some (lastBytes 8 da ++ ':' :: dp) := by
        rw [hline2, List.getElem?_set_self (by simpa using hlen3)]
      have g4 : (regexpSplit line2)[4]? = some st := by
        rw [hline2, List.getElem?_set_ne (by decide), List.getElem?_set_ne (by decide), h4]
      rw [connOfLine_of_items _ _ _ _ g2,
        connOfItems_eq protocol ipversion _ _ _ st _ sp1 _ dp1 rs rd g2 g3 g4 hs2 hd2]
      have hnot : ¬ (8 < (lastBytes 8 da).length ∧ 8 < (lastBytes 8 sa).length) := by omega
      simp only [if_neg hnot, int2ip_String, Option.map_some']
    · intro hx
      have hfit : hexValue (lastBytes 8 sa) < 2 ^ 32 := by
        have := hexValue_lt _ hx.2
        rw [hls] at this
        exact this
      rw [ParseUint_hex _ hx hfit, Nat.mod_eq_of_lt hfit]
    · intro hx
      have hfit : hexValue (lastBytes 8 da) < 2 ^ 32 := by
        have := hexValue_lt _ hx.2
        rw [hld] at this
        exact this
      rw [ParseUint_hex _ hx hfit, Nat.mod_eq_of_lt hfit]
  · intro hnot
    have hnot2 : ¬ (8 < da.length ∧ 8 < sa.length) := fun h => hnot ⟨h.2, h.1⟩
    simp only [if_neg hnot2, int2ip_String, and_self]

/-- Witness of `ipv6_truncation`: a `tcp6` row with two IPv4-mapped addresses. -/
theorem ipv6_truncation_witness :
    ∃ cd, connOfLine "tcp".toList 6
        "   0: 0000000000000000FFFF00000100007F:1F90 0000000000000000FFFF00000200007F:C350 01".toList
        = some [cd] ∧
      connOfLine "tcp".toList 6 "   0: 0100007F:1F90 0200007F:C350 01".toList = some [cd] ∧
      cd.SrcIP = "127.0.0.1".toList ∧ cd.DstIP = "127.0.0.2".toList := by
  obtain ⟨cd, h, hboth, _⟩ := ipv6_truncation "tcp".toList 6
    "   0: 0000000000000000FFFF00000100007F:1F90 0000000000000000FFFF00000200007F:C350 01".toList
    "0000000000000000FFFF00000100007F".toList "1F90".toList
    "0000000000000000FFFF00000200007F".toList "C350".toList "01".toList
    (by decide) (by decide) (by decide) (by decide) (by decide)
  obtain ⟨hline2, _, _, hs, hd⟩ := hboth (by decide) (by decide)
  exact ⟨cd, h, hline2 _ (by decide), hs (by decide), hd (by decide)⟩

theorem ParseUint_of_SyntaxFails (t : GoString) (h : SyntaxFails t) :
    (ParseUint t 16 32).1 = 0 := by
  rcases h with rfl | ⟨pre, c, post, rfl, hpre, hfit, hc⟩
  · rfl
  · rw [ParseUint_bad pre c post hpre hfit hc]

theorem ParseUint_of_RangeFails (t : GoString) (h : RangeFails t) :
    (ParseUint t 16 32).1 = 4294967295 := by
  rw [ParseUint_hex_big t h.1 h.2]

/-- C9, as stated, fails. A source address text too large for 32 bits is not
read as zero: `ParseUint` returns the largest 32-bit value with its range
error, and the descriptor carries 255.255.255.255, not 0.0.0.0. And when both
address texts are longer than 8 bytes only their last 8 bytes are decoded, so
that a source address text with bytes that are no hexadecimal digits
(`zz0000000100007F`), or one too large for 32 bits
(`0000000000000000FFFF00000100007F`), still gives 127.0.0.1. -/
theorem oversized_field_is_not_zero :
    ParseUint "100000000".toList 16 32 = (4294967295, some NumError.outOfRange) ∧
    parseConn "tcp".toList 4 ("hdr\n   0: 100000000:1F90 00000000:0000 0A".toList)
      = some [{ Protocol := "tcp".toList, IPVersion := 4, SrcPort := 8080,
                SrcIP := "255.255.255.255".toList, DstPort := 0, DstIP := "0.0.0.0".toList,
                Status := "listening".toList }] ∧
    (¬ ∃ cd, parseConn "tcp".toList 4 ("hdr\n   0: 100000000:1F90 00000000:0000 0A".toList)
      = some [cd] ∧ cd.SrcIP = "0.0.0.0".toList) ∧
    (ParseUint "zz0000000100007F".toList 16 32).2 = some NumError.badSyntax ∧
    parseConn "tcp".toList 6
        ("hdr\n   0: zz0000000100007F:1F90 0000000000000000FFFF00000200007F:C350 01".toList)
      = some [{ Protocol := "tcp".toList, IPVersion := 6, SrcPort := 8080,
                SrcIP := "127.0.0.1".toList, DstPort := 50000, DstIP := "127.0.0.2".toList,
                Status := "established".toList }] ∧
    (ParseUint "0000000000000000FFFF00000100007F".toList 16 32).2
      = some NumError.outOfRange ∧
    parseConn "tcp".toList 6
        ("hdr\n   0: 0000000000000000FFFF00000100007F:1F90 0000000000000000FFFF00000200007F:C350 01".toList)
      = some [{ Protocol := "tcp".toList, IPVersion := 6, SrcPort := 8080,
                SrcIP := "127.0.0.1".toList, DstPort := 50000, DstIP := "127.0.0.2".toList,
                Status := "established".toList }] := by
  refine ⟨by decide, by decide, ?_, by decide, by decide, by decide, by decide⟩
  rintro ⟨cd, h, hip⟩
  have h2 : parseConn "tcp".toList 4 ("hdr\n   0: 100000000:1F90 00000000:0000 0A".toList)
      = some [{ Protocol := "tcp".toList, IPVersion := 4, SrcPort := 8080,
                SrcIP := "255.255.255.255".toList, DstPort := 0, DstIP := "0.0.0.0".toList,
                Status := "listening".toList }] := by decide
  rw [h2] at h
  simp only [Option.some.injEq, List.cons.injEq, and_true] at h
  rw [← h] at hip
  exact absurd hip (by decide)

/-- C9, amended: for every data line with at least 5 fields whose source field
is `sa:sp` and whose destination field is `da:dp` (one colon each), the line
yields exactly one descriptor, and each numeric text that is decoded is
treated as follows when it fails to parse. The texts that are decoded are the
port texts `sp` and `dp`, the state text, and for each address the text
`addressText`: the whole address text, or only its last 8 bytes when both
address texts are longer than 8 bytes (so not the address text of the field
itself in that case). When such a text is empty or has a byte that is no
hexadecimal digit before any overflow, it counts as zero (address "0.0.0.0",
port 0, status "other (code:0)"); when it is a hexadecimal number too large
for 32 bits, it counts as 4294967295 (address "255.255.255.255", port
4294967295, status "other (code:4294967295)"). -/
theorem failed_fields (protocol : GoString) (ipversion : Int)
    (line sa sp da dp st : GoString)
    (h2 : (regexpSplit line)[2]? = some (sa ++ ':' :: sp)) (hsa : ':' ∉ sa) (hsp : ':' ∉ sp)
    (h3 : (regexpSplit line)[3]? = some (da ++ ':' :: dp)) (hda : ':' ∉ da) (hdp : ':' ∉ dp)
    (h4 : (regexpSplit line)[4]? = some st) :
    ∃ cd, connOfLine protocol ipversion line = some [cd] ∧
      (SyntaxFails (addressText sa da) → cd.SrcIP = "0.0.0.0".toList) ∧
      (RangeFails (addressText sa da) → cd.SrcIP = "255.255.255.255".toList) ∧
      (SyntaxFails (addressText da sa) → cd.DstIP = "0.0.0.0".toList) ∧
      (RangeFails (addressText da sa) → cd.DstIP = "255.255.255.255".toList) ∧
      (SyntaxFails sp → cd.SrcPort = 0) ∧ (RangeFails sp → cd.SrcPort = 4294967295) ∧
      (SyntaxFails dp → cd.DstPort = 0) ∧ (RangeFails dp → cd.DstPort = 4294967295) ∧
      (SyntaxFails st → cd.Status = "other (code:0)".toList) ∧
      (RangeFails st → cd.Status = "other (code:4294967295)".toList) := by
  have hs := stringsSplit_pair sa sp hsa hsp
  have hd := stringsSplit_pair da dp hda hdp
  rw [connOfLine_of_items _ _ _ _ h2,
    connOfItems_eq protocol ipversion _ _ _ st sa sp da dp [] [] h2 h3 h4 hs hd]
  have eS : (if 8 < da.length ∧ 8 < sa.length then sa.drop (sa.length - 8) else sa)
      = addressText sa da := by
    unfold addressText
    by_cases h : 8 < da.length ∧ 8 < sa.length
    · rw [if_pos h, if_pos ⟨h.2, h.1⟩, lastBytes_eq_drop]
    · rw [if_neg h, if_neg (fun h2 => h ⟨h2.2, h2.1⟩)]
  have eD : (if 8 < da.length ∧ 8 < sa.length then da.drop (da.length - 8) else da)
      = addressText da sa := by
    unfold addressText
    by_cases h : 8 < da.length ∧ 8 < sa.length
    · rw [if_pos h, if_pos h, lastBytes_eq_drop]
    · rw [if_neg h, if_neg h]
  refine ⟨_, rfl, ?_⟩
  simp only [eS, eD]
  refine ⟨?_, ?_, ?_, ?_, ?_, ?_, ?_, ?_, ?_, ?_⟩
  · intro h; rw [ParseUint_of_SyntaxFails _ h]; decide
  · intro h; rw [ParseUint_of_RangeFails _ h]; decide
  · intro h; rw [ParseUint_of_SyntaxFails _ h]; decide
  · intro h; rw [ParseUint_of_RangeFails _ h]; decide
  · intro h; exact ParseUint_of_SyntaxFails _ h
  · intro h; exact ParseUint_of_RangeFails _ h
  · intro h; exact ParseUint_of_SyntaxFails _ h
  · intro h; exact ParseUint_of_RangeFails _ h
  · intro h; rw [ParseUint_of_SyntaxFails _ h]; decide
  · intro h; rw [ParseUint_of_RangeFails _ h]; decide

/-- Witness of `failed_fields`: an oversized source address, a source port and
a destination address with a byte that is no digit, an empty destination
port and an oversized state. -/
theorem failed_fields_witness :
    ∃ cd, connOfLine "tcp".toList 4 "   0: 100000000:zz 0100007G: FFFFFFFFF".toList = some [cd] ∧
      cd.SrcIP = "255.255.255.255".toList ∧ cd.SrcPort = 0 ∧
      cd.DstIP = "0.0.0.0".toList ∧ cd.DstPort = 0 ∧
      cd.Status = "other (code:4294967295)".toList := by
  obtain ⟨cd, h, _, hsr, hds, _, hps, _, hpd, _, _, hst⟩ :=
    failed_fields "tcp".toList 4 "   0: 100000000:zz 0100007G: FFFFFFFFF".toList
      "100000000".toList "zz".toList "0100007G".toList [] "FFFFFFFFF".toList
      (by decide) (by decide) (by decide) (by decide) (by decide) (by decide) (by decide)
  refine ⟨cd, h, hsr ⟨by decide, by decide⟩, hps ?_, hds ?_, hpd (Or.inl rfl),
    hst ⟨by decide, by decide⟩⟩
  · exact Or.inr ⟨[], 'z', "z".toList, rfl, by decide, by decide, by decide⟩
  · exact Or.inr ⟨"0100007".toList, 'G', [], by decide, by decide, by decide, by decide⟩

/-- C10, as stated, fails: the port text `10000` is read with a 32-bit width
and kept in a 64-bit field, so the descriptor's `srcPort` is 65536. -/
theorem port_above_16_bits :
    parseConn "tcp".toList 4 ("hdr\n   0: 0100007F:10000 00000000:0000 0A".toList)
      = some [{ Protocol := "tcp".toList, IPVersion := 4, SrcPort := 65536,
                SrcIP := "127.0.0.1".toList, DstPort := 0, DstIP := "0.0.0.0".toList,
                Status := "listening".toList }] ∧
    ¬ ∀ cds, parseConn "tcp".toList 4 ("hdr\n   0: 0100007F:10000 00000000:0000 0A".toList)
      = some cds → ∀ cd ∈ cds, cd.SrcPort ≤ 65535 ∧ cd.DstPort ≤ 65535 := by
  refine ⟨by decide, fun h => ?_⟩
  have := h _ (by decide : parseConn "tcp".toList 4
    ("hdr\n   0: 0100007F:10000 00000000:0000 0A".toList)
      = some [{ Protocol := "tcp".toList, IPVersion := 4, SrcPort := 65536,
                SrcIP := "127.0.0.1".toList, DstPort := 0, DstIP := "0.0.0.0".toList,
                Status := "listening".toList }]) _ (List.mem_singleton.2 rfl)
  exact absurd this.1 (by decide)

/-- C10, amended: for every input text and every descriptor the parser
returns, `srcPort` and `dstPort` are 32-bit unsigned values, i.e. each is at
most 4294967295. -/
theorem ports_fit_32_bits (protocol : GoString) (ipversion : Int) (text : GoString)
    (cds : List connectionDesc) (h : parseConn protocol ipversion text = some cds)
    (cd : connectionDesc) (hcd : cd ∈ cds) :
    cd.SrcPort ≤ 4294967295 ∧ cd.DstPort ≤ 4294967295 := by
  unfold parseConn at h
  split at h
  · cases h
  · rcases connLoop_mem _ _ _ _ _ h cd hcd with hm | ⟨line, _, hl⟩
    · simp at hm
    · exact connOfItems_ports _ _ _ _ hl

/-- Witness of `ports_fit_32_bits`: a table row with the ports FFFFFFFF and
10000. -/
theorem ports_fit_32_bits_witness :
    parseConn "tcp".toList 4 ("hdr\n   0: 0100007F:FFFFFFFF 00000000:10000 0A".toList)
      = some [{ Protocol := "tcp".toList, IPVersion := 4, SrcPort := 4294967295,
                SrcIP := "127.0.0.1".toList, DstPort := 65536, DstIP := "0.0.0.0".toList,
                Status := "listening".toList }] ∧
    (4294967295 : Nat) ≤ 4294967295 ∧ (65536 : Nat) ≤ 4294967295 :=
  ⟨by decide,
    ports_fit_32_bits "tcp".toList 4
      ("hdr\n   0: 0100007F:FFFFFFFF 00000000:10000 0A".toList)
      [{ Protocol := "tcp".toList, IPVersion := 4, SrcPort := 4294967295,
         SrcIP := "127.0.0.1".toList, DstPort := 65536, DstIP := "0.0.0.0".toList,
         Status := "listening".toList }]
      (by decide)
      { Protocol := "tcp".toList, IPVersion := 4, SrcPort := 4294967295,
         SrcIP := "127.0.0.1".toList, DstPort := 65536, DstIP := "0.0.0.0".toList,
         Status := "listening".toList }
      (List.mem_singleton.2 rfl)⟩

/-! ## The workload connection aggregator -/

/-- C5 fails on the code: for a pod of three containers whose `tcp` output has a
data line of three fields, the aggregator issues one exec call, the parse of
its output panics (the same defect as in C2), and nothing is returned, where
the claim has four calls for each visited container. With an exec collaborator whose
first container returns one established TCP connection the calls are the
four of the first container. -/
theorem early_exit_lost_on_short_line :
    GetAllContainersConn shortLineRemote [samplePod]
      = ([{ Namespace := "default".toList, PodName := "web".toList, Container := "c1".toList,
            Procfile := "tcp".toList }], none) ∧
    (GetAllContainersConn establishedRemote [samplePod]).1
      = callsFor "default".toList "web".toList "c1".toList := by
  decide

/-- C6 fails on the code: for a pod of one container whose `tcp` output holds
one established connection and whose `tcp6` output has a truncated data line,
the aggregator returns nothing (the parse of the `tcp6` output panics: the
same defect as in C2), where the claim has it return that one connection.
When every exec call fails and delivers empty output the result is the empty
sequence. -/
theorem connections_lost_on_truncated_line :
    GetAllContainersConn truncatedRemote
        [{ Namespace := "default".toList, Name := "web".toList, Containers := ["c1".toList] }]
      = ([{ Namespace := "default".toList, PodName := "web".toList, Container := "c1".toList,
            Procfile := "tcp".toList },
          { Namespace := "default".toList, PodName := "web".toList, Container := "c1".toList,
            Procfile := "tcp6".toList }], none) ∧
    (GetAllContainersConn failingRemote [samplePod]).2
      = some [{ Namespace := "default".toList, PodName := "web".toList, Connections := [] }] := by
  decide

/-! ## The process inventory -/

/-- C7, as stated, fails: in the small introspection root, processes 1 and 7
share the network namespace 4026531956 and are placed in two buckets, keyed by
their process-ID namespaces 4026531836 and 4026532200; no bucket has the
network namespace as its key. -/
theorem same_net_namespace_two_buckets :
    processes (some sampleDir) sampleLinks
      = Outcome.returned
          [(4026531836, [{ pid := 1, pidns := 4026531836, netns := 4026531956,
                           Connections := [] }]),
           (4026532200, [{ pid := 7, pidns := 4026532200, netns := 4026531956,
                           Connections := [] }])] ∧
    ¬ ∀ m, processes (some sampleDir) sampleLinks = Outcome.returned m →
      ∀ kb ∈ m, ∀ p ∈ kb.2, p.netns = kb.1 := by
  refine ⟨by decide, fun h => ?_⟩
  have := h _ (by decide : processes (some sampleDir) sampleLinks
      = Outcome.returned
          [(4026531836, [{ pid := 1, pidns := 4026531836, netns := 4026531956,
                           Connections := [] }]),
           (4026532200, [{ pid := 7, pidns := 4026532200, netns := 4026531956,
                           Connections := [] }])])
    (4026531836, [⟨1, 4026531836, 4026531956, []⟩]) (List.mem_cons_self _ _)
    ⟨1, 4026531836, 4026531956, []⟩ (List.mem_singleton.2 rfl)
  exact absurd this (by decide)

/-- C7, amended: for every listing of the introspection root, the map the
inventory returns is keyed by process-ID-namespace ID (no key twice), its
buckets hold exactly the surviving processes, every surviving process is in
exactly one bucket, namely the bucket of its own `pidns`, and any two
processes with the same process-ID namespace ID are in the same bucket,
whatever their network namespace IDs are. A map is returned whenever the
listing ends without a read error and every entry can be scanned. -/
theorem inventory_grouped_by_pid_namespace (d : Dir) (readlink : GoString → Option GoString) :
    (d.readError = false → (∀ fi ∈ d.batches.flatten, Scannable readlink fi) →
      ∃ m, processes (some d) readlink = Outcome.returned m) ∧
    ∀ m, processes (some d) readlink = Outcome.returned m →
      (m.map Prod.fst).Nodup ∧
      (allRecords m).Perm (survivors readlink d) ∧
      (∀ kb ∈ m, ∀ p ∈ kb.2, p.pidns = kb.1) ∧
      (∀ p ∈ survivors readlink d, ∃ kb ∈ m, p ∈ kb.2 ∧ kb.1 = p.pidns ∧
        ∀ kb2 ∈ m, p ∈ kb2.2 → kb2 = kb) ∧
      (∀ kb1 ∈ m, ∀ kb2 ∈ m, ∀ p ∈ kb1.2, ∀ q ∈ kb2.2, p.pidns = q.pidns → kb1 = kb2) := by
  refine ⟨fun he hscan => ?_, fun m h => ?_⟩
  · have := scanDir_returns readlink d.batches [] hscan
    simpa [processes, he] using this
  have hg : Grouped m ([] ++ d.batches.flatten.filterMap (survivor readlink)) :=
    scanDir_grouped readlink d.readError d.batches [] m [] h
      ⟨List.nodup_nil, by simp, by simp [allRecords]⟩
  rw [List.nil_append] at hg
  obtain ⟨h1, h2, h3⟩ := hg
  have hsame : ∀ kb1 ∈ m, ∀ kb2 ∈ m, ∀ p ∈ kb1.2, ∀ q ∈ kb2.2, p.pidns = q.pidns →
      kb1 = kb2 := by
    intro kb1 hk1 kb2 hk2 p hp q hq hpq
    apply List.inj_on_of_nodup_map h1 hk1 hk2
    rw [← h2 kb1 hk1 p hp, ← h2 kb2 hk2 q hq, hpq]
  refine ⟨h1, h3, h2, ?_, hsame⟩
  intro p hp
  have hmem : p ∈ allRecords m := h3.mem_iff.2 hp
  simp only [allRecords, List.mem_flatMap] at hmem
  obtain ⟨kb, hkb, hpkb⟩ := hmem
  exact ⟨kb, hkb, hpkb, (h2 kb hkb p hpkb).symm,
    fun kb2 hkb2 hp2 => hsame kb2 hkb2 kb hkb p hp2 p hpkb rfl⟩

/-- Witness of `inventory_grouped_by_pid_namespace`: the small introspection
root. -/
theorem inventory_grouped_by_pid_namespace_witness :
    survivors sampleLinks sampleDir
      = [{ pid := 1, pidns := 4026531836, netns := 4026531956, Connections := [] },
         { pid := 7, pidns := 4026532200, netns := 4026531956, Connections := [] }] ∧
    ∀ p ∈ survivors sampleLinks sampleDir,
      ∃ kb ∈ [((4026531836 : Int), [(⟨1, 4026531836, 4026531956, []⟩ : Process)]),
              ((4026532200 : Int), [(⟨7, 4026532200, 4026531956, []⟩ : Process)])],
        p ∈ kb.2 ∧ kb.1 = p.pidns ∧
        ∀ kb2 ∈ [((4026531836 : Int), [(⟨1, 4026531836, 4026531956, []⟩ : Process)]),
              ((4026532200 : Int), [(⟨7, 4026532200, 4026531956, []⟩ : Process)])],
          p ∈ kb2.2 → kb2 = kb :=
  ⟨by decide,
    ((inventory_grouped_by_pid_namespace sampleDir sampleLinks).2
      [(4026531836, [⟨1, 4026531836, 4026531956, []⟩]),
       (4026532200, [⟨7, 4026532200, 4026531956, []⟩])] (by decide)).2.2.2.1⟩

end Kubegraph
